import Mathlib

/-!
A verification development for the message-resolution engine of
python-fluent (django-ftl fork).  The Python source under `fluent/` is
shallowly embedded: pure functions become Lean functions, the mutable
resolver environment becomes explicit state passing, and Python
exceptions become an `Except` layer.  Machine floats from the Python
numeric tower are modelled exactly as rationals (the number literals of
the Fluent grammar are finite decimals, and no verified property depends
on float rounding); native ints/floats/Decimals and their `FluentNumber`
wrappers are collapsed into one numeric value constructor, since both
format through the locale adapter and both count as numbers in variant
matching.  The babel locale services (plural rules, number and date
rendering) are external collaborators of the engine and appear as opaque
function fields of a locale-adapter record.
-/

namespace PyFluent

/-- Error kinds collected in the per-call error list.  These correspond
to the exception classes of `fluent/exceptions.py` (FluentReferenceError,
FluentCyclicReferenceError, FluentDuplicateMessageId, FluentJunkFound)
plus the builtin Python `TypeError` and `ValueError` used by the
resolver.  Each carries its human-readable message. -/
inductive FluentError where
  | referenceError (msg : String)
  | cyclicReferenceError (msg : String)
  | duplicateMessageId (msg : String)
  | junkFound (msg : String)
  | typeError (msg : String)
  | valueError (msg : String)
deriving DecidableEq, Repr

/-- Python exceptions that propagate out of `resolve` and abort the
format call (as opposed to errors appended to the error list).
`lookupError` covers both `KeyError` (store miss) and the explicit
`LookupError` raised for an undefined message body; `typeError` is the
`singledispatch` fallback raise; `assertionError` is the assert in
`handle_variant_expression`.  `fuelExhausted` is an artefact of the fuel
embedding of the recursion; the termination theorem shows it never
occurs for the actual entry point. -/
inductive Raised where
  | lookupError (msg : String)
  | typeError (msg : String)
  | assertionError
  | fuelExhausted
deriving DecidableEq, Repr

/-- Runtime values flowing through the resolver.

* `str` — a Python `unicode` string.
* `num` — a native int/float or a `FluentNumber` wrapper over one
  (`FluentInt`/`FluentFloat` subclass the native type, so both satisfy
  the resolver's `is_number`, and both render through
  `locale.formatNumber`).
* `dec` — a `Decimal`-backed value: a raw `Decimal` external argument
  or the `FluentDecimal` wrapper.  It passes `handle_argument`'s
  isinstance tuple and formats as a locale-aware number, but it is NOT
  `isinstance(val, (int, float))`, so `is_number` is false for it and
  variant matching treats it as a non-number.
* `date` — a native date/datetime or `FluentDateType` wrapper, with the
  calendar content kept opaque as a string key for the locale adapter.
* `escaped` — an opaque value of some escaper's output type (for example
  `Markup` or `Markdown` in the test-suite escapers).  `eid` records
  which escaper object produced it (object identity), and `strLike`
  records whether that output type is a `str` subclass (true for
  `Markup`, false for `Markdown`): this drives `isinstance(x, text_type)`
  checks and whether `len`/slicing work on the value.
* `none` — the `FluentNone` sentinel with its optional carried id.
* `other` — an arbitrary unsupported host object of the named type,
  reachable only as an external argument. -/
inductive FluentValue where
  | str (s : String)
  | num (q : ℚ)
  | dec (q : ℚ)
  | date (d : String)
  | escaped (eid : Nat) (strLike : Bool) (s : String)
  | none (id : Option String)
  | other (tyName : String)
deriving DecidableEq, Repr

/-- `isinstance(v, text_type)`: true for plain strings and for escaped
values whose output type subclasses `str`. -/
def isTextType : FluentValue → Bool
  | .str _ => true
  | .escaped _ strLike _ => strLike
  | _ => false

/-- `is_number(val)` from the resolver: `isinstance(val, (int, float))`.
True exactly for the `num` constructor (native int/float and their
`FluentInt`/`FluentFloat` wrappers).  Decimal-backed values (`dec`) are
not int/float instances, so they are not numbers here even though they
format as numbers. -/
def isNumberVal : FluentValue → Bool
  | .num _ => true
  | _ => false

/-- Python `==` on the runtime values the resolver compares.  Mixed
int/float comparisons are numeric equality (exact on the rational
model); a `str` subclass such as `Markup` compares equal to a plain
string with the same content.  Pairs of values never compared by the
engine (opaque non-str escaper outputs from different escapers, `other`
objects) fall back to tag-and-content equality. -/
def pyEq : FluentValue → FluentValue → Bool
  | .str a, .str b => a == b
  | .str a, .escaped _ true b => a == b
  | .escaped _ true a, .str b => a == b
  | .escaped _ true a, .escaped _ true b => a == b
  | .escaped e1 false a, .escaped e2 false b => e1 == e2 && a == b
  | .num a, .num b => a == b
  | .dec a, .dec b => a == b
  | .dec a, .num b => a == b
  | .num a, .dec b => a == b
  | .date a, .date b => a == b
  | .other a, .other b => a == b
  | _, _ => false

/-- `len(part)` where supported: defined for strings and str-like
escaped values; `none` models the `TypeError` that `len` raises on
other objects (caught and ignored by `handle_pattern`). -/
def partLen : FluentValue → Option Nat
  | .str s => some s.length
  | .escaped _ true s => some s.length
  | .escaped _ false _ => Option.none
  | .num _ => Option.none
  | .dec _ => Option.none
  | .date _ => Option.none
  | .none _ => Option.none
  | .other _ => Option.none

/-- `part[:n]` on the length-supporting values (slicing a `str` subclass
such as `Markup` yields a value of the same type). -/
def truncVal (n : Nat) : FluentValue → FluentValue
  | .str s => .str (String.mk (s.data.take n))
  | .escaped eid true s => .escaped eid true (String.mk (s.data.take n))
  | v => v

/-- The printable type name used in the "Unsupported external type"
message (Python interpolates `type(arg)`). -/
def pyTypeName : FluentValue → String
  | .str _ => "str"
  | .num _ => "number"
  | .dec _ => "Decimal"
  | .date _ => "date"
  | .escaped _ _ _ => "escaped"
  | .none _ => "FluentNone"
  | .other tyName => tyName

/-- Modelled from the spec: `fluent/types.py` is not under `src/`.  The
"none" sentinel "carr[ies] an identifier string used as a fallback
rendering" and `FluentNone.format` "renders its carried identifier"
(spec section 2 and 4.3); the compiled-code tests show that a bare
`FluentNone()` renders as `"???"`. -/
def noneFormat : Option String → String
  | Option.some name => name
  | Option.none => "???"

/-- Digit run to a natural number (the fluent number literal grammar
guarantees only ASCII digits appear). -/
def parseDigits (cs : List Char) : Nat :=
  cs.foldl (fun acc c => acc * 10 + (c.toNat - 48)) 0

/-- `s.startswith("-")`, on the character list of the string (the core
`String.startsWith` is not kernel-reducible). -/
def startsWithDash (s : String) : Bool :=
  match s.data with
  | [] => false
  | c :: _ => c == '-'

/-- `numeric_to_native` from `fluent/utils.py`: a numeric string matching
`-? [0-9]+ (. [0-9]+)?` parses as an int when it has no dot and as a
float otherwise.  Both are represented exactly as rationals, operating
on the character list of the string. -/
def numericToNative (s : String) : ℚ :=
  let neg := startsWithDash s
  let body := if neg then s.data.drop 1 else s.data
  let q : ℚ :=
    if body.contains '.' then
      let intPart := body.takeWhile (fun c => c ≠ '.')
      let fracPart := (body.dropWhile (fun c => c ≠ '.')).drop 1
      (parseDigits intPart : ℚ) +
        (parseDigits fracPart : ℚ) / ((10 : ℚ) ^ fracPart.length)
    else (parseDigits body : ℚ)
  if neg then -q else q

/-- The locale adapter (spec section 4.6): the engine consumes babel
through exactly these capabilities — CLDR plural category of a number,
and locale rendering of numbers and dates. -/
structure LocaleAdapter where
  pluralForm : ℚ → String
  formatNumber : ℚ → String
  formatDate : String → String

/-- An escaping policy, `fluent/escapers.py` plus the attribute bundle
required of escapers by the resolver.  Python identifies escapers by
object identity (`outer is inner`); the model carries an explicit `eid`
with `0` reserved for the null escaper.  `isOutputType v` models
`isinstance(v, escaper.output_type)`. -/
structure Escaper where
  eid : Nat
  name : String
  select : String → Bool
  useIsolating : Option Bool
  isOutputType : FluentValue → Bool
  markEscaped : String → FluentValue
  escape : FluentValue → FluentValue
  stringJoin : List FluentValue → FluentValue

/-- Content of a text-like value, used only by the null escaper's join
(all parts joined by the null escaper are strings in every reachable
state). -/
def textContent : FluentValue → String
  | .str s => s
  | .escaped _ _ s => s
  | _ => ""

/-- The `null_escaper` namespace object: `select` always true,
`mark_escaped`/`escape` the identity, `string_join` is `''.join`.
Modelled from the spec for the two attributes the class body of
`escapers.py` does not list but the resolver reads: "The null escaper
has output type = plain string" (section 4.4) and the effective
isolation policy falls back to the context default, so its
`use_isolating` is unset (section 4.3). -/
def nullEscaper : Escaper where
  eid := 0
  name := "null_escaper"
  select := fun _ => true
  useIsolating := Option.none
  isOutputType := isTextType
  markEscaped := fun s => .str s
  escape := fun v => v
  stringJoin := fun parts => .str (String.join (parts.map textContent))

/-- `escapers_compatible` from `fluent/escapers.py`: the inner escaper is
the null escaper, or both are the same escaper object. -/
def escapersCompatible (outerEscaper innerEscaper : Escaper) : Bool :=
  if innerEscaper.eid == nullEscaper.eid then true
  else outerEscaper.eid == innerEscaper.eid

/-- `escaper_for_message`: the first configured escaper whose `select`
accepts the message id, falling through to the null escaper. -/
def escaperForMessage (escapers : List Escaper) (messageId : String) : Escaper :=
  match escapers.find? (fun e => e.select messageId) with
  | some e => e
  | Option.none => nullEscaper

/-!
The AST contract (spec section 3 and 6): tagged variant nodes produced by
the external parser.  Ordered sequences inside nodes are given explicit
cons-cell types so every traversal below is plain mutual structural
recursion.  Each `Pattern` node carries a parse-time id `pid` standing
for Python object identity, which is what the resolver's `dirty` set of
"Pattern nodes currently being resolved" keys on (the spec's design
note: "in languages without pointer identity, assign a stable per-node
id during parse and key on it").
-/

/-- A variant key: a `VariantName` or a `NumberLiteral` (numeric
string). -/
inductive VariantKey where
  | variantName (name : String)
  | numberLiteral (value : String)
deriving DecidableEq, Repr

mutual

inductive Expression where
  | stringLiteral (value : String)
  | numberLiteral (value : String)
  | messageReference (id : String)
  | termReference (id : String)
  | variableReference (id : String)
  | attributeExpression (ref : String) (name : String)
  | variantExpression (ref : String) (key : String)
  | selectExpression (selector : Expression) (variants : VariantSeq)
  | callExpression (callee : String) (positional : ExprSeq) (named : NamedSeq)
deriving DecidableEq, Repr

inductive ExprSeq where
  | nil
  | cons (e : Expression) (rest : ExprSeq)
deriving DecidableEq, Repr

inductive NamedSeq where
  | nil
  | cons (name : String) (e : Expression) (rest : NamedSeq)
deriving DecidableEq, Repr

inductive PatternElement where
  | textElement (value : String)
  | placeable (expression : Expression)
deriving DecidableEq, Repr

inductive ElemSeq where
  | nil
  | cons (el : PatternElement) (rest : ElemSeq)
deriving DecidableEq, Repr

inductive Pattern where
  | mk (pid : Nat) (elements : ElemSeq)
deriving DecidableEq, Repr

inductive Variant where
  | mk (key : VariantKey) (value : VariantValue) (default : Bool)
deriving DecidableEq, Repr

inductive VariantSeq where
  | nil
  | cons (v : Variant) (rest : VariantSeq)
deriving DecidableEq, Repr

inductive VariantValue where
  | pattern (p : Pattern)
  | variantList (vl : VariantList)
deriving DecidableEq, Repr

inductive VariantList where
  | mk (variants : VariantSeq)
deriving DecidableEq, Repr

end

def Pattern.pid : Pattern → Nat
  | .mk pid _ => pid

def Pattern.elements : Pattern → ElemSeq
  | .mk _ elements => elements

def VariantList.variants : VariantList → VariantSeq
  | .mk variants => variants

def Variant.key : Variant → VariantKey
  | .mk key _ _ => key

def Variant.value : Variant → VariantValue
  | .mk _ value _ => value

def Variant.default : Variant → Bool
  | .mk _ _ default => default

/-- The value of a Message or Term node: a `Pattern` or (for terms
defined as bare variant lists) a `VariantList`. -/
inductive NodeValue where
  | pattern (p : Pattern)
  | variantList (vl : VariantList)
deriving DecidableEq, Repr

/-- An `Attribute` node of a message or term: id and pattern value. -/
structure FluentAttribute where
  id : String
  value : Pattern
deriving DecidableEq, Repr

/-- A store entry: the Python stores hold `Message`, `Term` and
(flattened) `Attribute` AST nodes, dispatched on by type in `handle`.
Only `Message` values may be absent (attributes-only messages). -/
inductive Entry where
  | message (value : Option NodeValue) (attributes : List FluentAttribute)
  | term (value : NodeValue) (attributes : List FluentAttribute)
  | attribute (value : Pattern)
deriving DecidableEq, Repr

/-- `message.value` as read by `handle_variant_expression`. -/
def Entry.valueOf : Entry → Option NodeValue
  | .message v _ => v
  | .term v _ => some v
  | .attribute p => some (.pattern p)

/-- A store is an ordered id-to-node dictionary (`OrderedDict`). -/
abbrev Store := List (String × Entry)

/-- `store[name] = item`: overwrite in place when the key exists
(keeping its position, as `OrderedDict` assignment does), append
otherwise. -/
def storeSet : Store → String → Entry → Store
  | [], name, item => [(name, item)]
  | (k, v) :: rest, name, item =>
      if k = name then (name, item) :: rest
      else (k, v) :: storeSet rest name item

/-- Dictionary lookup: first (and only, for well-formed stores) binding
of the key. -/
def storeLookup (store : Store) (name : String) : Option Entry :=
  match store with
  | [] => Option.none
  | (k, v) :: rest => if k = name then some v else storeLookup rest name

/-- `name in store`. -/
def storeMem (store : Store) (name : String) : Bool :=
  (storeLookup store name).isSome

/-- A function exposed to messages.  `argSpec` is the
`(positional arity | Any, allowed kwargs | Any)` pair that
`inspect_function_args` computes; Python obtains it by reflection on the
host function (or from an explicit `ftl_arg_spec` attribute), which the
model carries as data alongside the call behaviour.  `Option.none`
plays the role of `Any`. -/
structure FluentFunc where
  argSpec : Option Nat × Option (List String)
  call : List FluentValue → List (String × FluentValue) → FluentValue

/-- The per-context data shared by both engine shapes
(`MessageContextBase.__init__`): the locale adapter derived from the
locale list, the merged builtin/user function map, the isolation
default, the escaper list, the two stores and the recorded parsing
issues. -/
structure MessageContextData where
  locale : LocaleAdapter
  functions : List (String × FluentFunc)
  useIsolating : Bool
  escapers : List Escaper
  messages : Store
  terms : Store
  parsingIssues : List (Option String × FluentError)

/-!
Syntactic measures and pattern collectors.  `exprSize` and friends weigh
the AST; `patPats` and friends list every `Pattern` node occurring in a
subtree.  Both are used by the fuel bound and the termination argument
for the resolver, not by the resolver itself.
-/

mutual

def exprSize : Expression → Nat
  | .selectExpression sel variants => 1 + exprSize sel + variantSeqSize variants
  | .callExpression _ pos named => 1 + exprSeqSize pos + namedSeqSize named
  | _ => 1

def exprSeqSize : ExprSeq → Nat
  | .nil => 1
  | .cons e rest => 1 + exprSize e + exprSeqSize rest

def namedSeqSize : NamedSeq → Nat
  | .nil => 1
  | .cons _ e rest => 1 + exprSize e + namedSeqSize rest

def elemSize : PatternElement → Nat
  | .textElement _ => 1
  | .placeable e => 1 + exprSize e

def elemSeqSize : ElemSeq → Nat
  | .nil => 1
  | .cons el rest => 1 + elemSize el + elemSeqSize rest

def patSize : Pattern → Nat
  | .mk _ els => 1 + elemSeqSize els

def variantSize : Variant → Nat
  | .mk _ v _ => 1 + vvalueSize v

def variantSeqSize : VariantSeq → Nat
  | .nil => 1
  | .cons v rest => 1 + variantSize v + variantSeqSize rest

def vvalueSize : VariantValue → Nat
  | .pattern p => 1 + patSize p
  | .variantList vl => 1 + vlSize vl

def vlSize : VariantList → Nat
  | .mk vs => 1 + variantSeqSize vs

end

def nvSize : NodeValue → Nat
  | .pattern p => 1 + patSize p
  | .variantList vl => 1 + vlSize vl

def entrySize : Entry → Nat
  | .message (some nv) _ => 1 + nvSize nv
  | .message Option.none _ => 1
  | .term nv _ => 1 + nvSize nv
  | .attribute p => 1 + patSize p

mutual

def exprPats : Expression → List Pattern
  | .selectExpression sel variants => exprPats sel ++ variantSeqPats variants
  | .callExpression _ pos named => exprSeqPats pos ++ namedSeqPats named
  | _ => []

def exprSeqPats : ExprSeq → List Pattern
  | .nil => []
  | .cons e rest => exprPats e ++ exprSeqPats rest

def namedSeqPats : NamedSeq → List Pattern
  | .nil => []
  | .cons _ e rest => exprPats e ++ namedSeqPats rest

def elemPats : PatternElement → List Pattern
  | .textElement _ => []
  | .placeable e => exprPats e

def elemSeqPats : ElemSeq → List Pattern
  | .nil => []
  | .cons el rest => elemPats el ++ elemSeqPats rest

def patPats : Pattern → List Pattern
  | .mk pid els => .mk pid els :: elemSeqPats els

def variantPats : Variant → List Pattern
  | .mk _ v _ => vvaluePats v

def variantSeqPats : VariantSeq → List Pattern
  | .nil => []
  | .cons v rest => variantPats v ++ variantSeqPats rest

def vvaluePats : VariantValue → List Pattern
  | .pattern p => patPats p
  | .variantList vl => vlPats vl

def vlPats : VariantList → List Pattern
  | .mk vs => variantSeqPats vs

end

def nvPats : NodeValue → List Pattern
  | .pattern p => patPats p
  | .variantList vl => vlPats vl

/-- Patterns reachable from a store entry.  Only the value is listed:
the resolver reads attributes exclusively through their own flattened
store entries, never through the parent node. -/
def entryPats : Entry → List Pattern
  | .message (some nv) _ => nvPats nv
  | .message Option.none _ => []
  | .term nv _ => nvPats nv
  | .attribute p => patPats p

/-- All patterns reachable from the two stores of a context. -/
def ctxPats (ctx : MessageContextData) : List Pattern :=
  (ctx.messages ++ ctx.terms).foldr (fun kv acc => entryPats kv.2 ++ acc) []

/-- Total weight of the stores (plus slack), dominating the size of any
single stored entry. -/
def totalWeight (ctx : MessageContextData) : Nat :=
  (ctx.messages ++ ctx.terms).foldr (fun kv acc => entrySize kv.2 + acc) 0 + 16

/-!
The resolver environment.  `ResolverEnvironment` holds the context, the
arguments, the error sink, the `dirty` set, the part counter, the
per-function argument specs and the `current` frame with the active
escaper.  In the model the read-only components (context, args, escaper)
are plain parameters — `env.modified` restores `current` on exit, so
passing the escaper downward is exactly its scoped semantics — and the
`dirty` set is likewise a downward parameter: `handle_pattern` adds a
pattern on entry and removes it before every normal return, so the set
observed by any call equals the set of patterns on the current
resolution stack.  The genuinely accumulating state (error list and
part counter) is threaded explicitly.
-/

structure St where
  errors : List FluentError
  partCount : Nat
deriving DecidableEq, Repr

def St.addError (st : St) (e : FluentError) : St :=
  { st with errors := st.errors ++ [e] }

/-- Memory-DOS cap on the expansion of a single placeable. -/
def MAX_PART_LENGTH : Nat := 2500

/-- CPU-DOS cap on the number of parts in one format call. -/
def MAX_PARTS : Nat := 1000

/-- Unicode bidi isolation characters. -/
def FSI : String := "⁨"

def PDI : String := "⁩"

/-- `handle` on runtime values (the registrations for `FluentNone`,
`FluentNumber`, `int`, `float`, `Decimal`, `FluentDateType`, `date`,
`datetime`): numbers and dates format through the locale adapter, the
none sentinel renders its identifier.  A string or an opaque escaped
value has no registration and hits the `singledispatch` fallback, which
raises `TypeError`. -/
def handleValue (locale : LocaleAdapter) : FluentValue → Except Raised FluentValue
  | .num q => .ok (.str (locale.formatNumber q))
  | .dec q => .ok (.str (locale.formatNumber q))
  | .date d => .ok (.str (locale.formatDate d))
  | .none n => .ok (.str (noneFormat n))
  | v => .error (.typeError ("Cannot handle object of type " ++ pyTypeName v))

/-- The value-recursion of `fully_resolve`: keep a value already of the
escaper's output type, escape a text value, otherwise `handle` it and
recurse.  The recursion depth on values is at most two (`handleValue`
only produces strings), so a micro-fuel of 3 is always sufficient — see
`fullyResolveValue_not_fuelExhausted`. -/
def fullyResolveValueAux (esc : Escaper) (locale : LocaleAdapter) :
    Nat → FluentValue → Except Raised FluentValue
  | 0, _ => .error .fuelExhausted
  | n + 1, v =>
    if esc.isOutputType v then .ok v
    else if isTextType v then .ok (esc.escape v)
    else
      match handleValue locale v with
      | .error e => .error e
      | .ok v2 => fullyResolveValueAux esc locale n v2

def fullyResolveValue (esc : Escaper) (locale : LocaleAdapter)
    (v : FluentValue) : Except Raised FluentValue :=
  fullyResolveValueAux esc locale 3 v

/-- Lines 164-175 of `handle_pattern`: try `len(part)` (some escaper
output types do not support it — the raised `TypeError` is caught and
the check skipped); when the length exceeds `MAX_PART_LENGTH`, record a
`ValueError` and truncate the part. -/
def truncateAndRecord (part : FluentValue) (st : St) : FluentValue × St :=
  match partLen part with
  | Option.none => (part, st)
  | some lenPart =>
    if lenPart > MAX_PART_LENGTH then
      (truncVal MAX_PART_LENGTH part,
       st.addError (.valueError ("Too many characters in part, (" ++ toString lenPart ++
         ", max allowed is " ++ toString MAX_PART_LENGTH ++ ")")))
    else (part, st)

/-- `isinstance(arg, (int, float, Decimal, date, datetime, text_type))`
— the native part of the sanitization check of the resolver's
`handle_argument`. -/
def argIsNative : FluentValue → Bool
  | .num _ => true
  | .dec _ => true
  | .date _ => true
  | .str _ => true
  | .escaped _ strLike _ => strLike
  | _ => false

/-- `handle_argument` from `fluent/resolver.py`: a value that is native
(number, date, string) or already of the current escaper's output type
passes through unchanged (numbers and dates are locale-aware values in
the collapsed value model, formatted by the locale adapter when
rendered); anything else records `TypeError("Unsupported external
type: name, type")` and yields the none sentinel carrying the argument
name. -/
def handleArgument (esc : Escaper) (arg : FluentValue) (name : String)
    (st : St) : FluentValue × St :=
  if argIsNative arg || esc.isOutputType arg then (arg, st)
  else
    (.none (some name),
     st.addError (.typeError ("Unsupported external type: " ++ name ++ ", " ++ pyTypeName arg)))

/-- `handle_argument` from `fluent/runtime.py` (the compiled-code
runtime): same classification, but numbers/dates are wrapped eagerly
and the unsupported fallback returns the bare argument name (a plain
string) after recording the `TypeError`. -/
def runtimeHandleArgument (outputTypeTest : FluentValue → Bool)
    (arg : FluentValue) (name : String) (errors : List FluentError) :
    FluentValue × List FluentError :=
  if outputTypeTest arg then (arg, errors)
  else if isTextType arg then (arg, errors)
  else
    match arg with
    | .num q => (.num q, errors)
    | .dec q => (.dec q, errors)
    | .date d => (.date d, errors)
    | _ =>
      (.str name,
       errors ++ [.typeError ("Unsupported external type: " ++ name ++ ", " ++ pyTypeName arg)])

/-- `val is None or isinstance(val, FluentNone)`. -/
def isNoneSentinel : Option FluentValue → Bool
  | Option.none => true
  | some (.none _) => true
  | some _ => false

/-- `match(val1, val2, env)` from the resolver.  `val1` is the selector
value (possibly the Python `None` passed when only the default variant
is wanted), `val2` the handled variant key.  The single recursive call
`match(val2, val1, env)` for the name-vs-number case is unfolded in
place: with `val2` numeric and `val1` non-numeric and neither side a
none sentinel, it reduces to the plural-category comparison with the
arguments swapped. -/
def matchVal (locale : LocaleAdapter) (val1 : Option FluentValue)
    (val2 : FluentValue) : Bool :=
  if isNoneSentinel val1 then false
  else if isNoneSentinel (some val2) then false
  else
    match val1 with
    | some v1 =>
      if isNumberVal v1 then
        if !isNumberVal val2 then
          match v1 with
          | .num q => pyEq (.str (locale.pluralForm q)) val2
          | _ => false
        else pyEq v1 val2
      else if isNumberVal val2 then
        match val2 with
        | .num q => pyEq (.str (locale.pluralForm q)) v1
        | _ => false
      else pyEq v1 val2
    | Option.none => false

/-- `handle` on variant keys: a `VariantName` yields its name, a
`NumberLiteral` its parsed numeric value. -/
def handleVariantKey : VariantKey → FluentValue
  | .variantName n => .str n
  | .numberLiteral s => .num (numericToNative s)

/-- First variant whose handled key matches the selector value (the
`break` of the selection loops).  Matching is pure, so the loop prefix
before a break has no observable effect. -/
def firstMatchVariant (locale : LocaleAdapter) (key : FluentValue) :
    VariantSeq → Option Variant
  | .nil => Option.none
  | .cons v rest =>
    if matchVal locale (some key) (handleVariantKey v.key) then some v
    else firstMatchVariant locale key rest

/-- The `default` tracker of the selection loops when they run to the
end: the last variant flagged default. -/
def lastDefaultVariant : VariantSeq → Option Variant
  | .nil => Option.none
  | .cons v rest =>
    match lastDefaultVariant rest with
    | some d => some d
    | Option.none => if v.default then some v else Option.none

/-- The variant found by `select_from_variant_list` with `key = None`:
the loop breaks at the first default. -/
def firstDefaultVariant : VariantSeq → Option Variant
  | .nil => Option.none
  | .cons v rest => if v.default then some v else firstDefaultVariant rest

/-- Result of `lookup_reference`: a store entry together with the
escaper selected for it, or the `FluentNone` substitute carrying the
looked-up id. -/
inductive RefResult where
  | entry (e : Entry)
  | noneVal (id : String)
deriving Repr

/-- `message_id_for_attr` from `fluent/utils.py`. -/
def messageIdForAttr (parentMsgId attrName : String) : String :=
  parentMsgId ++ "." ++ attrName

/-- The shared tail of `lookup_reference`: substitute `FluentNone` for a
missing node, select the target's escaper, and on incompatibility (see
`escapersCompatible`) record a `TypeError`, replace the value with the
none sentinel and keep the calling context's escaper. -/
def lookupRefFinish (ctx : MessageContextData) (cur : Escaper)
    (messageId : String) (found : Option Entry) (st : St) :
    RefResult × Escaper × St :=
  let newEscaper := escaperForMessage ctx.escapers messageId
  if !escapersCompatible cur newEscaper then
    (.noneVal messageId, cur,
     st.addError (.typeError ("Escaper " ++ newEscaper.name ++ " for message " ++ messageId ++
       " cannot be used from calling context with " ++ cur.name ++ " escaper")))
  else
    match found with
    | some e => (.entry e, newEscaper, st)
    | Option.none => (.noneVal messageId, newEscaper, st)

/-- The store a reference id resolves against: the term store for ids
with a leading dash, the message store otherwise. -/
def pickStore (ctx : MessageContextData) (messageId : String) : Store :=
  if startsWithDash messageId then ctx.terms else ctx.messages

/-- The reference-error text of an unqualified lookup miss. -/
def unknownRefMsg (messageName : String) : String :=
  (if startsWithDash messageName then "Unknown term: " else "Unknown message: ") ++ messageName

/-- `lookup_reference` with `attr_name = None`: pick the store by the
leading dash of the id, record a reference error on a miss. -/
def lookupReferencePlain (ctx : MessageContextData) (cur : Escaper)
    (messageName : String) (st : St) : RefResult × Escaper × St :=
  match storeLookup (pickStore ctx messageName) messageName with
  | some m => lookupRefFinish ctx cur messageName (some m) st
  | Option.none =>
    lookupRefFinish ctx cur messageName Option.none
      (st.addError (.referenceError (unknownRefMsg messageName)))

/-- `lookup_reference` from `fluent/resolver.py`.  For a qualified
`parent.attr` id whose lookup fails while the parent exists, the
recursive fallback `lookup_reference(env, message_name)` resolves the
parent instead (after recording the attribute error). -/
def lookupReference (ctx : MessageContextData) (cur : Escaper)
    (messageName : String) (attrName : Option String) (st : St) :
    RefResult × Escaper × St :=
  match attrName with
  | Option.none => lookupReferencePlain ctx cur messageName st
  | some a =>
    match storeLookup (pickStore ctx (messageIdForAttr messageName a)) (messageIdForAttr messageName a) with
    | some m => lookupRefFinish ctx cur (messageIdForAttr messageName a) (some m) st
    | Option.none =>
      let st1 := st.addError (.referenceError ("Unknown attribute: " ++ messageIdForAttr messageName a))
      if storeMem (pickStore ctx (messageIdForAttr messageName a)) messageName then
        lookupReferencePlain ctx cur messageName st1
      else lookupRefFinish ctx cur (messageIdForAttr messageName a) Option.none st1

/-- The positional-arity half of `args_match`. -/
def argsMatchPositional (functionName : String) (numArgs : Nat)
    (positionalArgs : Option Nat) : Bool × Option FluentError :=
  match positionalArgs with
  | some n =>
    if n ≠ numArgs then
      (false, some (.typeError (functionName ++ "() takes " ++ toString n ++
        " positional arguments but " ++ toString numArgs ++ " was given")))
    else (true, Option.none)
  | Option.none => (true, Option.none)

/-- `args_match` from `fluent/utils.py`: validate evaluated call
arguments against the function's argument spec, mirroring the native
Python `TypeError` messages.  `Option.none` in the spec plays the role
of `Any`. -/
def argsMatch (functionName : String) (args : List FluentValue)
    (kwargs : List (String × FluentValue))
    (argSpec : Option Nat × Option (List String)) : Bool × Option FluentError :=
  let (positionalArgs, allowedKwargs) := argSpec
  match allowedKwargs with
  | some allowed =>
    if !kwargs.all (fun kw => allowed.contains kw.1) then
      let bad :=
        match kwargs.find? (fun kw => !allowed.contains kw.1) with
        | some kw => kw.1
        | Option.none => ""
      (false, some (.typeError (functionName ++
        "() got an unexpected keyword argument \x27" ++ bad ++ "\x27")))
    else argsMatchPositional functionName args.length positionalArgs
  | Option.none => argsMatchPositional functionName args.length positionalArgs

/-- `len(pattern.elements)`. -/
def elemSeqLen : ElemSeq → Nat
  | .nil => 0
  | .cons _ rest => 1 + elemSeqLen rest

/-- The effective isolation policy of `handle_pattern`: the escaper's
`use_isolating` when it is set, else the context default. -/
def effectiveIsolation (ctx : MessageContextData) (esc : Escaper) : Bool :=
  match esc.useIsolating with
  | some b => b
  | Option.none => ctx.useIsolating

/-- Rendering of a runtime value inside the "Unknown variant" message
(Python interpolates the value with `str`). -/
def displayValue : FluentValue → String
  | .str s => s
  | .num q => toString q
  | .dec q => toString q
  | .date s => s
  | .escaped _ _ s => s
  | .none n => noneFormat n
  | .other t => t

/-- The "Unknown variant" bookkeeping of `select_from_variant_list`
when no variant matched: the error is recorded unless the key is a none
sentinel (a `None` key never reaches here — the loop breaks at the
default first). -/
def unknownVariantRecord (k : FluentValue) (st : St) : St :=
  if !isNoneSentinel (some k) then
    st.addError (.referenceError ("Unknown variant: " ++ displayValue k))
  else st

/-!
The resolver proper: the `singledispatch` `handle` family of
`fluent/resolver.py`, written as one mutual block of state-passing
functions over a fuel parameter (every call consumes one unit; the
termination theorem below exhibits a sufficient fuel, so the
`fuelExhausted` outcome never occurs for the actual entry point).
Parameters: the context, the active escaper (the `current` frame,
scoped by passing it downward), the external arguments, the node, the
`dirty` list of pattern ids on the resolution stack, and the
accumulating state (error list, part counter).
-/

mutual

/-- `handle` on `Expression` nodes: string and number literals, the four
reference forms, variable references, select expressions and call
expressions. -/
def handleExpr : Nat → MessageContextData → Escaper → List (String × FluentValue) →
    Expression → List Nat → St → Except Raised (FluentValue × St)
  | 0, _, _, _, _, _, _ => .error .fuelExhausted
  | fuel + 1, ctx, esc, args, e, d, st =>
    match e with
    | .stringLiteral s => .ok (.str s, st)
    | .numberLiteral s => .ok (.num (numericToNative s), st)
    | .variableReference name =>
      match args.lookup name with
      | some argVal => .ok (handleArgument esc argVal name st)
      | Option.none =>
        .ok (.none (some name), st.addError (.referenceError ("Unknown external: " ++ name)))
    | .messageReference id =>
      match lookupReference ctx esc id Option.none st with
      | (.noneVal nid, _, st1) => .ok (.str (noneFormat (some nid)), st1)
      | (.entry m, newEsc, st1) => handleEntry fuel ctx newEsc args m d st1
    | .termReference id =>
      match lookupReference ctx esc id Option.none st with
      | (.noneVal nid, _, st1) => .ok (.str (noneFormat (some nid)), st1)
      | (.entry m, newEsc, st1) => handleEntry fuel ctx newEsc args m d st1
    | .attributeExpression ref name =>
      match lookupReference ctx esc ref (some name) st with
      | (.noneVal nid, _, st1) => .ok (.none (some nid), st1)
      | (.entry m, newEsc, st1) => handleEntry fuel ctx newEsc args m d st1
    | .variantExpression ref key =>
      match lookupReference ctx esc ref Option.none st with
      | (.noneVal nid, _, st1) => .ok (.none (some nid), st1)
      | (.entry m, newEsc, st1) =>
        match m.valueOf with
        | some (.variantList vl) =>
          selectFromVariantList fuel ctx newEsc args vl (some (.str key)) d st1
        | _ => .error .assertionError
    | .selectExpression sel variants =>
      match handleExpr fuel ctx esc args sel d st with
      | .error er => .error er
      | .ok (key, st1) => selectFromSelect fuel ctx esc args variants key d st1
    | .callExpression fname pos named =>
      match (ctx.functions).lookup fname with
      | Option.none =>
        .ok (.none (some (fname ++ "()")),
             st.addError (.referenceError ("Unknown function: " ++ fname)))
      | some fn =>
        match evalExprs fuel ctx esc args pos d st with
        | .error er => .error er
        | .ok (argVals, st1) =>
          match evalNamed fuel ctx esc args named d st1 with
          | .error er => .error er
          | .ok (kwargVals, st2) =>
            match argsMatch fname argVals kwargVals fn.argSpec with
            | (true, _) => .ok (fn.call argVals kwargVals, st2)
            | (false, some er) => .ok (.none (some (fname ++ "()")), st2.addError er)
            | (false, Option.none) => .ok (.none (some (fname ++ "()")), st2)

/-- `handle` on store nodes: `Message`, `Term` and `Attribute` resolve
their value; a `Message` with no value hits `handle(None)`, which
raises the same `LookupError` as a completely missing message. -/
def handleEntry : Nat → MessageContextData → Escaper → List (String × FluentValue) →
    Entry → List Nat → St → Except Raised (FluentValue × St)
  | 0, _, _, _, _, _, _ => .error .fuelExhausted
  | fuel + 1, ctx, esc, args, m, d, st =>
    match m with
    | .message (some nv) _ => handleNodeValue fuel ctx esc args nv d st
    | .message Option.none _ => .error (.lookupError "Message body not defined")
    | .term nv _ => handleNodeValue fuel ctx esc args nv d st
    | .attribute p => handlePattern fuel ctx esc args p d st

/-- Dispatch on a node value: a `Pattern` body or a bare `VariantList`
(which selects its default, `handle_variant_list`). -/
def handleNodeValue : Nat → MessageContextData → Escaper → List (String × FluentValue) →
    NodeValue → List Nat → St → Except Raised (FluentValue × St)
  | 0, _, _, _, _, _, _ => .error .fuelExhausted
  | fuel + 1, ctx, esc, args, nv, d, st =>
    match nv with
    | .pattern p => handlePattern fuel ctx esc args p d st
    | .variantList vl => selectFromVariantList fuel ctx esc args vl Option.none d st

/-- `handle_pattern`: a pattern already in `dirty` records a
`FluentCyclicReferenceError` and yields the none sentinel; otherwise the
pattern is added to `dirty` for the rendering of its elements (and is
gone again afterwards — the downward `dirty` parameter), isolation is
decided from the effective policy and the element count, and the parts
are joined by the escaper. -/
def handlePattern : Nat → MessageContextData → Escaper → List (String × FluentValue) →
    Pattern → List Nat → St → Except Raised (FluentValue × St)
  | 0, _, _, _, _, _, _ => .error .fuelExhausted
  | fuel + 1, ctx, esc, args, p, d, st =>
    if p.pid ∈ d then
      .ok (.none Option.none, st.addError (.cyclicReferenceError "Cyclic reference"))
    else
      let useIso := effectiveIsolation ctx esc && decide (elemSeqLen p.elements > 1)
      match renderElements fuel ctx esc args useIso p.elements (p.pid :: d) st with
      | .error er => .error er
      | .ok (parts, st1) => .ok (esc.stringJoin parts, st1)

/-- The element loop of `handle_pattern`.  Every element bumps the part
counter; crossing `MAX_PARTS` records a single `ValueError`, appends one
none-rendered part and stops.  Text elements append their marked text
directly (deliberately without isolation or length check); placeables
are fully resolved, wrapped in FSI/PDI when isolating, and
length-checked/truncated. -/
def renderElements : Nat → MessageContextData → Escaper → List (String × FluentValue) →
    Bool → ElemSeq → List Nat → St → Except Raised (List FluentValue × St)
  | 0, _, _, _, _, _, _, _ => .error .fuelExhausted
  | fuel + 1, ctx, esc, args, useIso, els, d, st =>
    match els with
    | .nil => .ok ([], st)
    | .cons el rest =>
      let st1 : St := { st with partCount := st.partCount + 1 }
      if st1.partCount > MAX_PARTS then
        if st1.partCount = MAX_PARTS + 1 then
          let st2 := st1.addError (.valueError
            ("Too many parts in message (> " ++ toString MAX_PARTS ++ "), aborting."))
          match fullyResolveValue esc ctx.locale (.none Option.none) with
          | .error er => .error er
          | .ok v => .ok ([v], st2)
        else .ok ([], st1)
      else
        match el with
        | .textElement t =>
          match renderElements fuel ctx esc args useIso rest d st1 with
          | .error er => .error er
          | .ok (parts, st2) => .ok (esc.markEscaped t :: parts, st2)
        | .placeable _ =>
          match fullyResolveElement fuel ctx esc args el d st1 with
          | .error er => .error er
          | .ok (part0, st2) =>
            let tr := truncateAndRecord part0 st2
            match renderElements fuel ctx esc args useIso rest d tr.2 with
            | .error er => .error er
            | .ok (parts, st4) =>
              .ok ((if useIso then [esc.escape (.str FSI), tr.1, esc.escape (.str PDI)]
                    else [tr.1]) ++ parts, st4)

/-- `fully_resolve` on a pattern element: `handle` it and convert the
resulting value to the escaper's output type. -/
def fullyResolveElement : Nat → MessageContextData → Escaper → List (String × FluentValue) →
    PatternElement → List Nat → St → Except Raised (FluentValue × St)
  | 0, _, _, _, _, _, _ => .error .fuelExhausted
  | fuel + 1, ctx, esc, args, el, d, st =>
    match el with
    | .textElement t =>
      match fullyResolveValue esc ctx.locale (esc.markEscaped t) with
      | .error er => .error er
      | .ok v => .ok (v, st)
    | .placeable e =>
      match handleExpr fuel ctx esc args e d st with
      | .error er => .error er
      | .ok (v, st1) =>
        match fullyResolveValue esc ctx.locale v with
        | .error er => .error er
        | .ok v2 => .ok (v2, st1)

/-- `select_from_variant_list`: with no key, the loop breaks at the
first default variant; with a key, the first matching variant wins,
else an "Unknown variant" error is recorded (unless the key is a none
sentinel) and the last default is used.  A variant list with no default
variant would leave Python's local `default` unbound (a `NameError`);
the AST contract excludes it, and the model renders the none sentinel
there. -/
def selectFromVariantList : Nat → MessageContextData → Escaper → List (String × FluentValue) →
    VariantList → Option FluentValue → List Nat → St → Except Raised (FluentValue × St)
  | 0, _, _, _, _, _, _, _ => .error .fuelExhausted
  | fuel + 1, ctx, esc, args, vl, key, d, st =>
    match key with
    | Option.none =>
      match firstDefaultVariant vl.variants with
      | some v => handleVariantValue fuel ctx esc args v.value d st
      | Option.none => .ok (.none Option.none, st)
    | some k =>
      match firstMatchVariant ctx.locale k vl.variants with
      | some v => handleVariantValue fuel ctx esc args v.value d st
      | Option.none =>
        match lastDefaultVariant vl.variants with
        | some v => handleVariantValue fuel ctx esc args v.value d (unknownVariantRecord k st)
        | Option.none => .ok (.none Option.none, unknownVariantRecord k st)

/-- `select_from_select_expression`: first matching variant, else the
last default, else (no default present) the none sentinel. -/
def selectFromSelect : Nat → MessageContextData → Escaper → List (String × FluentValue) →
    VariantSeq → FluentValue → List Nat → St → Except Raised (FluentValue × St)
  | 0, _, _, _, _, _, _, _ => .error .fuelExhausted
  | fuel + 1, ctx, esc, args, variants, key, d, st =>
    match firstMatchVariant ctx.locale key variants with
    | some v => handleVariantValue fuel ctx esc args v.value d st
    | Option.none =>
      match lastDefaultVariant variants with
      | some v => handleVariantValue fuel ctx esc args v.value d st
      | Option.none => .ok (.none Option.none, st)

/-- `handle(found.value)`: a variant's value is a pattern or a nested
variant list. -/
def handleVariantValue : Nat → MessageContextData → Escaper → List (String × FluentValue) →
    VariantValue → List Nat → St → Except Raised (FluentValue × St)
  | 0, _, _, _, _, _, _ => .error .fuelExhausted
  | fuel + 1, ctx, esc, args, vv, d, st =>
    match vv with
    | .pattern p => handlePattern fuel ctx esc args p d st
    | .variantList vl => selectFromVariantList fuel ctx esc args vl Option.none d st

/-- Evaluation of the positional arguments of a call expression, left
to right. -/
def evalExprs : Nat → MessageContextData → Escaper → List (String × FluentValue) →
    ExprSeq → List Nat → St → Except Raised (List FluentValue × St)
  | 0, _, _, _, _, _, _ => .error .fuelExhausted
  | fuel + 1, ctx, esc, args, es, d, st =>
    match es with
    | .nil => .ok ([], st)
    | .cons e rest =>
      match handleExpr fuel ctx esc args e d st with
      | .error er => .error er
      | .ok (v, st1) =>
        match evalExprs fuel ctx esc args rest d st1 with
        | .error er => .error er
        | .ok (vs, st2) => .ok (v :: vs, st2)

/-- Evaluation of the named arguments of a call expression. -/
def evalNamed : Nat → MessageContextData → Escaper → List (String × FluentValue) →
    NamedSeq → List Nat → St → Except Raised (List (String × FluentValue) × St)
  | 0, _, _, _, _, _, _ => .error .fuelExhausted
  | fuel + 1, ctx, esc, args, ns, d, st =>
    match ns with
    | .nil => .ok ([], st)
    | .cons name e rest =>
      match handleExpr fuel ctx esc args e d st with
      | .error er => .error er
      | .ok (v, st1) =>
        match evalNamed fuel ctx esc args rest d st1 with
        | .error er => .error er
        | .ok (vs, st2) => .ok ((name, v) :: vs, st2)

end

/-- Fuel sufficient for any resolution against the context (see the
termination theorem): it dominates the measure
`(patterns outside dirty) * K + node weight` of every reachable call. -/
def resolverFuel (ctx : MessageContextData) : Nat :=
  ((ctxPats ctx).length + 1) * (3 * totalWeight ctx + 48) + 4 * totalWeight ctx + 64

/-- `resolve` from `fluent/resolver.py`: the module entry point.  Looks
up the message (only the message store — `_get_message`; a miss is the
`KeyError`/`LookupError` the caller sees), selects its escaper, builds
the fresh environment, and fully resolves the node. -/
def resolve (ctx : MessageContextData) (messageId : String)
    (args : List (String × FluentValue)) (errors : List FluentError) :
    Except Raised (FluentValue × List FluentError) :=
  match storeLookup ctx.messages messageId with
  | Option.none => .error (.lookupError messageId)
  | some message =>
    let escaper := escaperForMessage ctx.escapers messageId
    match handleEntry (resolverFuel ctx) ctx escaper args message [] ⟨errors, 0⟩ with
    | .error er => .error er
    | .ok (v, st) =>
      match fullyResolveValue escaper ctx.locale v with
      | .error er => .error er
      | .ok out => .ok (out, st.errors)

/-- `InterpretingMessageContext.format`: fresh error list, resolve,
return the `(value, errors)` pair (or propagate the raised lookup
failure). -/
def interpretingFormat (ctx : MessageContextData) (messageId : String)
    (args : List (String × FluentValue)) :
    Except Raised (FluentValue × List FluentError) :=
  resolve ctx messageId args []

/-- `all_messages` built by `CompilingMessageContext._compile`: the
message store updated with the term store (`OrderedDict.update`
semantics). -/
def allMessages (ctx : MessageContextData) : Store :=
  ctx.terms.foldl (fun acc kv => storeSet acc kv.1 kv.2) ctx.messages

/-- Modelled from the spec: `fluent/compiler.py` is not under `src/`
(only its tests and its caller `CompilingMessageContext` are).  Section
4.7 defines the compiled form of a message as one callable with
"Semantics [that] MUST match the resolver output token-for-token on
identical inputs", sharing the value model and runtime helpers; the
closure for an id is therefore modelled as the resolver applied to that
id. -/
def compiledFunction (ctx : MessageContextData) (messageId : String) :
    List (String × FluentValue) → List FluentError →
    Except Raised (FluentValue × List FluentError) :=
  fun args errors => resolve ctx messageId args errors

/-- Modelled from the spec (see `compiledFunction`): the compiled table
holds one closure per entry of `all_messages`. -/
def compileMessages (ctx : MessageContextData) :
    List (String × (List (String × FluentValue) → List FluentError →
      Except Raised (FluentValue × List FluentError))) :=
  (allMessages ctx).map (fun kv => (kv.1, compiledFunction ctx kv.1))

/-- `CompilingMessageContext.format`: compile (the lazy `_is_dirty`
caching is observationally the same as compiling on demand), look the
id up in the compiled table (a miss is the same `KeyError` the
interpreter raises) and run the closure on the arguments and a fresh
error list. -/
def compilingFormat (ctx : MessageContextData) (messageId : String)
    (args : List (String × FluentValue)) :
    Except Raised (FluentValue × List FluentError) :=
  match (compileMessages ctx).lookup messageId with
  | Option.none => .error (.lookupError messageId)
  | some f => f args []

/-!
Loading messages: `add_messages` of `MessageContextBase` together with
`add_message_and_attrs_to_store` of `fluent/utils.py`.  The external
parser hands over the resource body as a list of messages, terms and
junk items.
-/

/-- A top-level item of a parsed resource. -/
inductive ResourceItem where
  | message (id : String) (value : Option NodeValue) (attributes : List FluentAttribute)
  | term (id : String) (value : NodeValue) (attributes : List FluentAttribute)
  | junk (annotations : List String)
deriving Repr

def Entry.attrsOf : Entry → List FluentAttribute
  | .message _ attrs => attrs
  | .term _ attrs => attrs
  | .attribute _ => []

/-- `add_message_and_attrs_to_store`: assign the node under its id and
flatten every attribute under `parent.attr` (attributes of attributes
are not recursed into — the `attribute=True` call adds only the node). -/
def addMessageAndAttrsToStore (store : Store) (name : String) (item : Entry) : Store :=
  (item.attrsOf).foldl
    (fun acc a => storeSet acc (messageIdForAttr name a.id) (.attribute a.value))
    (storeSet store name item)

/-- `MessageContextBase._add_message`: an id already present records a
`FluentDuplicateMessageId` parsing issue; the node is stored (the
assignment overwrites) either way. -/
def addMessage (store : Store) (issues : List (Option String × FluentError))
    (name : String) (item : Entry) : Store × List (Option String × FluentError) :=
  let issues :=
    if storeMem store name then
      issues ++ [(some name,
        .duplicateMessageId ("Duplicate definition for \x27" ++ name ++ "\x27 added."))]
    else issues
  (addMessageAndAttrsToStore store name item, issues)

/-- `add_messages`: route messages and terms to their stores, record one
`FluentJunkFound` issue per junk item. -/
def addMessages (ctx : MessageContextData) (body : List ResourceItem) : MessageContextData :=
  body.foldl
    (fun c item =>
      match item with
      | .message id v attrs =>
        let r := addMessage c.messages c.parsingIssues id (.message v attrs)
        { c with messages := r.1, parsingIssues := r.2 }
      | .term id v attrs =>
        let r := addMessage c.terms c.parsingIssues id (.term v attrs)
        { c with terms := r.1, parsingIssues := r.2 }
      | .junk annotations =>
        { c with parsingIssues := c.parsingIssues ++
            [(Option.none, .junkFound ("Junk found: " ++ String.intercalate "; " annotations))] })
    ctx

/-!
Value-level lemmas: `handleValue` only produces strings or a
`TypeError`, so the value recursion of `fully_resolve` is exhausted
after two rounds and its micro-fuel never runs out.
-/

theorem handleValue_ok_str {locale : LocaleAdapter} {v w : FluentValue}
    (h : handleValue locale v = .ok w) : ∃ s, w = .str s := by
  cases v <;> simp [handleValue] at h <;> exact ⟨_, h.symm⟩

theorem handleValue_error_kind {locale : LocaleAdapter} {v : FluentValue} {e : Raised}
    (h : handleValue locale v = .error e) : ∃ m, e = .typeError m := by
  cases v <;> simp [handleValue] at h <;> exact ⟨_, h.symm⟩

theorem fullyResolveValue_ne_fuel (esc : Escaper) (locale : LocaleAdapter)
    (v : FluentValue) :
    fullyResolveValue esc locale v ≠ Except.error Raised.fuelExhausted := by
  unfold fullyResolveValue fullyResolveValueAux
  split
  · simp
  · split
    · simp
    · cases hv : handleValue locale v with
      | error e =>
        obtain ⟨m, rfl⟩ := handleValue_error_kind hv
        simp
      | ok v2 =>
        obtain ⟨s, rfl⟩ := handleValue_ok_str hv
        simp only []
        unfold fullyResolveValueAux
        split
        · simp
        · split
          · simp
          · simp [isTextType] at *

/-!
State extension: across any resolver call the error list only grows at
the end and the part counter never decreases.  This is the
"every error is appended to the call's error list" half of the error
propagation design.
-/

def StExt (st st2 : St) : Prop :=
  (∃ t, st2.errors = st.errors ++ t) ∧ st.partCount ≤ st2.partCount

theorem StExt.rfl (st : St) : StExt st st :=
  ⟨⟨[], by simp⟩, Nat.le_refl _⟩

theorem StExt.trans {a b c : St} (h1 : StExt a b) (h2 : StExt b c) : StExt a c := by
  obtain ⟨⟨t1, ht1⟩, hp1⟩ := h1
  obtain ⟨⟨t2, ht2⟩, hp2⟩ := h2
  exact ⟨⟨t1 ++ t2, by rw [ht2, ht1, List.append_assoc]⟩, Nat.le_trans hp1 hp2⟩

theorem StExt.addError (st : St) (e : FluentError) : StExt st (st.addError e) :=
  ⟨⟨[e], by simp [St.addError]⟩, by simp [St.addError]⟩

theorem StExt.bump (st : St) : StExt st { st with partCount := st.partCount + 1 } :=
  ⟨⟨[], by simp⟩, by simp⟩

theorem truncateAndRecord_ext (part : FluentValue) (st : St) :
    StExt st (truncateAndRecord part st).2 := by
  unfold truncateAndRecord
  split
  · exact StExt.rfl st
  · split
    · exact StExt.addError st _
    · exact StExt.rfl st

theorem unknownVariantRecord_ext (k : FluentValue) (st : St) :
    StExt st (unknownVariantRecord k st) := by
  unfold unknownVariantRecord
  split
  · exact StExt.addError st _
  · exact StExt.rfl st

theorem handleArgument_ext (esc : Escaper) (arg : FluentValue) (name : String)
    (st : St) : StExt st (handleArgument esc arg name st).2 := by
  unfold handleArgument
  split
  · exact StExt.rfl st
  · exact StExt.addError st _

theorem lookupRefFinish_ext (ctx : MessageContextData) (cur : Escaper)
    (messageId : String) (found : Option Entry) (st : St) :
    StExt st (lookupRefFinish ctx cur messageId found st).2.2 := by
  unfold lookupRefFinish
  dsimp only
  split
  · exact StExt.addError st _
  · split <;> exact StExt.rfl st

theorem lookupReferencePlain_ext (ctx : MessageContextData) (cur : Escaper)
    (messageName : String) (st : St) :
    StExt st (lookupReferencePlain ctx cur messageName st).2.2 := by
  unfold lookupReferencePlain
  split
  · exact lookupRefFinish_ext ..
  · exact StExt.trans (StExt.addError st _) (lookupRefFinish_ext ..)

theorem lookupReference_ext (ctx : MessageContextData) (cur : Escaper)
    (messageName : String) (attrName : Option String) (st : St) :
    StExt st (lookupReference ctx cur messageName attrName st).2.2 := by
  unfold lookupReference
  match attrName with
  | Option.none => exact lookupReferencePlain_ext ..
  | some a =>
    dsimp only
    split
    · exact lookupRefFinish_ext ..
    · split
      · exact StExt.trans (StExt.addError st _) (lookupReferencePlain_ext ..)
      · exact StExt.trans (StExt.addError st _) (lookupRefFinish_ext ..)

/-- Extension property of an `Except`-valued resolver result. -/
def extRes {α : Type} (st : St) : Except Raised (α × St) → Prop
  | .ok r => StExt st r.2
  | .error _ => True

theorem extRes_mono {α : Type} {st st1 : St} {r : Except Raised (α × St)}
    (h1 : StExt st st1) (h2 : extRes st1 r) : extRes st r := by
  cases r with
  | ok r => exact StExt.trans h1 h2
  | error e => trivial

theorem extRes_ok {α : Type} {st st2 : St} {a : α} (h : StExt st st2) :
    extRes st (Except.ok (a, st2)) := h

theorem extRes_error {α : Type} (st : St) (e : Raised) :
    extRes (α := α) st (Except.error e) := by
  simp [extRes]

/-- Mutual state-extension lemma: every resolver function of the fueled
family only appends to the error list and only increases the part
counter. -/
theorem extAll : ∀ fuel : Nat,
    (∀ ctx esc args e d st, extRes st (handleExpr fuel ctx esc args e d st)) ∧
    (∀ ctx esc args m d st, extRes st (handleEntry fuel ctx esc args m d st)) ∧
    (∀ ctx esc args nv d st, extRes st (handleNodeValue fuel ctx esc args nv d st)) ∧
    (∀ ctx esc args p d st, extRes st (handlePattern fuel ctx esc args p d st)) ∧
    (∀ ctx esc args useIso els d st, extRes st (renderElements fuel ctx esc args useIso els d st)) ∧
    (∀ ctx esc args el d st, extRes st (fullyResolveElement fuel ctx esc args el d st)) ∧
    (∀ ctx esc args vl key d st, extRes st (selectFromVariantList fuel ctx esc args vl key d st)) ∧
    (∀ ctx esc args variants key d st, extRes st (selectFromSelect fuel ctx esc args variants key d st)) ∧
    (∀ ctx esc args vv d st, extRes st (handleVariantValue fuel ctx esc args vv d st)) ∧
    (∀ ctx esc args es d st, extRes st (evalExprs fuel ctx esc args es d st)) ∧
    (∀ ctx esc args ns d st, extRes st (evalNamed fuel ctx esc args ns d st)) := by
  intro fuel
  induction fuel with
  | zero =>
    refine ⟨fun ctx esc args e d st => ?_, fun ctx esc args m d st => ?_,
      fun ctx esc args nv d st => ?_, fun ctx esc args p d st => ?_,
      fun ctx esc args useIso els d st => ?_, fun ctx esc args el d st => ?_,
      fun ctx esc args vl key d st => ?_, fun ctx esc args variants key d st => ?_,
      fun ctx esc args vv d st => ?_, fun ctx esc args es d st => ?_,
      fun ctx esc args ns d st => ?_⟩ <;>
      simp [handleExpr, handleEntry, handleNodeValue, handlePattern, renderElements,
        fullyResolveElement, selectFromVariantList, selectFromSelect, handleVariantValue,
        evalExprs, evalNamed, extRes]
  | succ fuel ih =>
    obtain ⟨ihE, ihM, ihNV, ihP, ihR, ihF, ihSVL, ihSS, ihVV, ihEE, ihEN⟩ := ih
    refine ⟨fun ctx esc args e d st => ?_, fun ctx esc args m d st => ?_,
      fun ctx esc args nv d st => ?_, fun ctx esc args p d st => ?_,
      fun ctx esc args useIso els d st => ?_, fun ctx esc args el d st => ?_,
      fun ctx esc args vl key d st => ?_, fun ctx esc args variants key d st => ?_,
      fun ctx esc args vv d st => ?_, fun ctx esc args es d st => ?_,
      fun ctx esc args ns d st => ?_⟩
    · -- handleExpr
      cases e with
      | stringLiteral s => exact extRes_ok (StExt.rfl st)
      | numberLiteral s => exact extRes_ok (StExt.rfl st)
      | variableReference name =>
        simp only [handleExpr]
        cases h : List.lookup name args with
        | some argVal => exact handleArgument_ext esc argVal name st
        | none => exact extRes_ok (StExt.addError st _)
      | messageReference id =>
        simp only [handleExpr]
        have hext := lookupReference_ext ctx esc id Option.none st
        split
        next nid x st1 heq => rw [heq] at hext; exact hext
        next m x st1 heq =>
          rw [heq] at hext
          exact extRes_mono hext (ihM ctx x args m d st1)
      | termReference id =>
        simp only [handleExpr]
        have hext := lookupReference_ext ctx esc id Option.none st
        split
        next nid x st1 heq => rw [heq] at hext; exact hext
        next m x st1 heq =>
          rw [heq] at hext
          exact extRes_mono hext (ihM ctx x args m d st1)
      | attributeExpression ref name =>
        simp only [handleExpr]
        have hext := lookupReference_ext ctx esc ref (some name) st
        split
        next nid x st1 heq => rw [heq] at hext; exact hext
        next m x st1 heq =>
          rw [heq] at hext
          exact extRes_mono hext (ihM ctx x args m d st1)
      | variantExpression ref key =>
        simp only [handleExpr]
        have hext := lookupReference_ext ctx esc ref Option.none st
        split
        next nid x st1 heq => rw [heq] at hext; exact hext
        next m x st1 heq =>
          rw [heq] at hext
          split
          next vl hv => exact extRes_mono hext (ihSVL ctx x args vl (some (.str key)) d st1)
          next hv => trivial
      | selectExpression sel variants =>
        simp only [handleExpr]
        cases h : handleExpr fuel ctx esc args sel d st with
        | error er => trivial
        | ok r =>
          obtain ⟨key, st1⟩ := r
          have h1 := ihE ctx esc args sel d st
          rw [h] at h1
          exact extRes_mono h1 (ihSS ctx esc args variants key d st1)
      | callExpression fname pos named =>
        simp only [handleExpr]
        split
        · exact extRes_ok (StExt.addError st _)
        · rename_i fn hf
          split
          · exact extRes_error ..
          · rename_i argVals st1 h1
            have e1 := ihEE ctx esc args pos d st
            rw [h1] at e1
            split
            · exact extRes_error ..
            · rename_i kwargVals st2 h2
              have e2 := ihEN ctx esc args named d st1
              rw [h2] at e2
              have e12 : StExt st st2 := StExt.trans e1 e2
              split
              · exact extRes_ok e12
              · exact extRes_ok (StExt.trans e12 (StExt.addError st2 _))
              · exact extRes_ok e12
    · -- handleEntry
      match m with
      | .message (some nv) attrs =>
        simp only [handleEntry]
        exact ihNV ctx esc args nv d st
      | .message Option.none attrs => simp [handleEntry, extRes]
      | .term nv attrs =>
        simp only [handleEntry]
        exact ihNV ctx esc args nv d st
      | .attribute p =>
        simp only [handleEntry]
        exact ihP ctx esc args p d st
    · -- handleNodeValue
      cases nv with
      | pattern p =>
        simp only [handleNodeValue]
        exact ihP ctx esc args p d st
      | variantList vl =>
        simp only [handleNodeValue]
        exact ihSVL ctx esc args vl Option.none d st
    · -- handlePattern
      simp only [handlePattern]
      split
      · exact extRes_ok (StExt.addError st _)
      · split
        · exact extRes_error ..
        · rename_i parts st1 h
          have h1 := ihR ctx esc args
            (effectiveIsolation ctx esc && decide (elemSeqLen p.elements > 1))
            p.elements (p.pid :: d) st
          rw [h] at h1
          exact extRes_ok h1
    · -- renderElements
      match els with
      | .nil => exact extRes_ok (StExt.rfl st)
      | .cons el rest =>
        simp only [renderElements]
        have hb : StExt st { st with partCount := st.partCount + 1 } := StExt.bump st
        split
        · split
          · split
            · exact extRes_error ..
            · exact extRes_ok (StExt.trans hb (StExt.addError _ _))
          · exact extRes_ok hb
        · split
          · -- text element
            split
            · exact extRes_error ..
            · rename_i parts st2 h
              have h1 := ihR ctx esc args useIso rest d { st with partCount := st.partCount + 1 }
              rw [h] at h1
              exact extRes_ok (StExt.trans hb h1)
          · -- placeable
            rename_i eexp
            split
            · exact extRes_error ..
            · rename_i part0 st2 h
              have h1 := ihF ctx esc args (.placeable eexp) d
                { st with partCount := st.partCount + 1 }
              rw [h] at h1
              have h2 := truncateAndRecord_ext part0 st2
              split
              · exact extRes_error ..
              · rename_i parts st4 h3
                have h4 := ihR ctx esc args useIso rest d (truncateAndRecord part0 st2).2
                rw [h3] at h4
                exact extRes_ok (StExt.trans hb (StExt.trans h1 (StExt.trans h2 h4)))
    · -- fullyResolveElement
      match el with
      | .textElement t =>
        simp only [fullyResolveElement]
        split
        · exact extRes_error ..
        · exact extRes_ok (StExt.rfl st)
      | .placeable e =>
        simp only [fullyResolveElement]
        split
        · exact extRes_error ..
        · rename_i v st1 h
          have h1 := ihE ctx esc args e d st
          rw [h] at h1
          split
          · exact extRes_error ..
          · exact extRes_ok h1
    · -- selectFromVariantList
      cases key with
      | none =>
        simp only [selectFromVariantList]
        cases hd : firstDefaultVariant vl.variants with
        | some v => exact ihVV ctx esc args v.value d st
        | none => exact extRes_ok (StExt.rfl st)
      | some k =>
        simp only [selectFromVariantList]
        split
        · exact ihVV ctx esc args _ d st
        · split
          · exact extRes_mono (unknownVariantRecord_ext k st) (ihVV ctx esc args _ d _)
          · exact extRes_ok (unknownVariantRecord_ext k st)
    · -- selectFromSelect
      simp only [selectFromSelect]
      cases hm : firstMatchVariant ctx.locale key variants with
      | some v => exact ihVV ctx esc args v.value d st
      | none =>
        cases hld : lastDefaultVariant variants with
        | some v => exact ihVV ctx esc args v.value d st
        | none => exact extRes_ok (StExt.rfl st)
    · -- handleVariantValue
      cases vv with
      | pattern p =>
        simp only [handleVariantValue]
        exact ihP ctx esc args p d st
      | variantList vl =>
        simp only [handleVariantValue]
        exact ihSVL ctx esc args vl Option.none d st
    · -- evalExprs
      match es with
      | .nil => exact extRes_ok (StExt.rfl st)
      | .cons e rest =>
        simp only [evalExprs]
        split
        · exact extRes_error ..
        · rename_i v st1 h
          have h1 := ihE ctx esc args e d st
          rw [h] at h1
          split
          · exact extRes_error ..
          · rename_i vs st2 h2
            have h3 := ihEE ctx esc args rest d st1
            rw [h2] at h3
            exact extRes_ok (StExt.trans h1 h3)
    · -- evalNamed
      match ns with
      | .nil => exact extRes_ok (StExt.rfl st)
      | .cons name e rest =>
        simp only [evalNamed]
        split
        · exact extRes_error ..
        · rename_i v st1 h
          have h1 := ihE ctx esc args e d st
          rw [h] at h1
          split
          · exact extRes_error ..
          · rename_i vs st2 h2
            have h3 := ihEN ctx esc args rest d st1
            rw [h2] at h3
            exact extRes_ok (StExt.trans h1 h3)

/-!
Support for the termination argument: positivity and collector bounds
for the syntactic measures, and counting lemmas for the patterns of the
context not yet on the `dirty` stack.
-/

theorem exprSize_pos (e : Expression) : 1 ≤ exprSize e := by
  cases e <;> simp only [exprSize] <;> omega

theorem exprSeqSize_pos (es : ExprSeq) : 1 ≤ exprSeqSize es := by
  cases es <;> simp only [exprSeqSize] <;> omega

theorem namedSeqSize_pos (ns : NamedSeq) : 1 ≤ namedSeqSize ns := by
  cases ns <;> simp only [namedSeqSize] <;> omega

theorem elemSize_pos (el : PatternElement) : 1 ≤ elemSize el := by
  cases el <;> simp only [elemSize] <;> omega

theorem elemSeqSize_pos (els : ElemSeq) : 1 ≤ elemSeqSize els := by
  cases els <;> simp only [elemSeqSize] <;> omega

theorem patSize_eq (p : Pattern) : patSize p = 1 + elemSeqSize p.elements := by
  cases p; simp [patSize, Pattern.elements]

theorem variantSeqSize_pos (vs : VariantSeq) : 1 ≤ variantSeqSize vs := by
  cases vs <;> simp only [variantSeqSize] <;> omega

theorem vvalueSize_pos (vv : VariantValue) : 1 ≤ vvalueSize vv := by
  cases vv <;> simp [vvalueSize]

theorem vlSize_eq (vl : VariantList) : vlSize vl = 1 + variantSeqSize vl.variants := by
  cases vl; simp [vlSize, VariantList.variants]

theorem variantPats_eq (v : Variant) : variantPats v = vvaluePats v.value := by
  cases v; simp [variantPats, Variant.value]

theorem variantSize_eq (v : Variant) : variantSize v = 1 + vvalueSize v.value := by
  cases v; simp [variantSize, Variant.value]

theorem vlPats_eq (vl : VariantList) : vlPats vl = variantSeqPats vl.variants := by
  cases vl; simp [vlPats, VariantList.variants]

theorem patPats_self (p : Pattern) : p ∈ patPats p := by
  cases p; simp [patPats]

theorem patPats_elems (p : Pattern) : elemSeqPats p.elements ⊆ patPats p := by
  cases p
  simp only [patPats, Pattern.elements]
  exact List.subset_cons_self _ _

mutual

theorem exprPats_size : ∀ (e : Expression) (p : Pattern), p ∈ exprPats e → patSize p ≤ exprSize e
  | .selectExpression sel vars, p, hp => by
    simp only [exprPats, List.mem_append] at hp
    rcases hp with h | h
    · have := exprPats_size sel p h
      simp only [exprSize]; omega
    · have := variantSeqPats_size vars p h
      simp only [exprSize]; omega
  | .callExpression c pos named, p, hp => by
    simp only [exprPats, List.mem_append] at hp
    rcases hp with h | h
    · have := exprSeqPats_size pos p h
      simp only [exprSize]; omega
    · have := namedSeqPats_size named p h
      simp only [exprSize]; omega
  | .stringLiteral _, p, hp => by simp [exprPats] at hp
  | .numberLiteral _, p, hp => by simp [exprPats] at hp
  | .messageReference _, p, hp => by simp [exprPats] at hp
  | .termReference _, p, hp => by simp [exprPats] at hp
  | .variableReference _, p, hp => by simp [exprPats] at hp
  | .attributeExpression _ _, p, hp => by simp [exprPats] at hp
  | .variantExpression _ _, p, hp => by simp [exprPats] at hp

theorem exprSeqPats_size : ∀ (es : ExprSeq) (p : Pattern), p ∈ exprSeqPats es → patSize p ≤ exprSeqSize es
  | .nil, p, hp => by simp [exprSeqPats] at hp
  | .cons e rest, p, hp => by
    simp only [exprSeqPats, List.mem_append] at hp
    rcases hp with h | h
    · have := exprPats_size e p h
      simp only [exprSeqSize]; omega
    · have := exprSeqPats_size rest p h
      simp only [exprSeqSize]; omega

theorem namedSeqPats_size : ∀ (ns : NamedSeq) (p : Pattern), p ∈ namedSeqPats ns → patSize p ≤ namedSeqSize ns
  | .nil, p, hp => by simp [namedSeqPats] at hp
  | .cons _ e rest, p, hp => by
    simp only [namedSeqPats, List.mem_append] at hp
    rcases hp with h | h
    · have := exprPats_size e p h
      simp only [namedSeqSize]; omega
    · have := namedSeqPats_size rest p h
      simp only [namedSeqSize]; omega

theorem elemPats_size : ∀ (el : PatternElement) (p : Pattern), p ∈ elemPats el → patSize p ≤ elemSize el
  | .textElement _, p, hp => by simp [elemPats] at hp
  | .placeable e, p, hp => by
    have := exprPats_size e p (by simpa [elemPats] using hp)
    simp only [elemSize]; omega

theorem elemSeqPats_size : ∀ (els : ElemSeq) (p : Pattern), p ∈ elemSeqPats els → patSize p ≤ elemSeqSize els
  | .nil, p, hp => by simp [elemSeqPats] at hp
  | .cons el rest, p, hp => by
    simp only [elemSeqPats, List.mem_append] at hp
    rcases hp with h | h
    · have := elemPats_size el p h
      simp only [elemSeqSize]; omega
    · have := elemSeqPats_size rest p h
      simp only [elemSeqSize]; omega

theorem patPats_size : ∀ (q : Pattern) (p : Pattern), p ∈ patPats q → patSize p ≤ patSize q
  | .mk pid els, p, hp => by
    simp only [patPats, List.mem_cons] at hp
    rcases hp with h | h
    · rw [h]
    · have := elemSeqPats_size els p h
      simp only [patSize]; omega

theorem variantPats_size : ∀ (v : Variant) (p : Pattern), p ∈ variantPats v → patSize p ≤ variantSize v
  | .mk k vv dflt, p, hp => by
    have := vvaluePats_size vv p (by simpa [variantPats] using hp)
    simp only [variantSize]; omega

theorem variantSeqPats_size : ∀ (vs : VariantSeq) (p : Pattern), p ∈ variantSeqPats vs → patSize p ≤ variantSeqSize vs
  | .nil, p, hp => by simp [variantSeqPats] at hp
  | .cons v rest, p, hp => by
    simp only [variantSeqPats, List.mem_append] at hp
    rcases hp with h | h
    · have := variantPats_size v p h
      simp only [variantSeqSize]; omega
    · have := variantSeqPats_size rest p h
      simp only [variantSeqSize]; omega

theorem vvaluePats_size : ∀ (vv : VariantValue) (p : Pattern), p ∈ vvaluePats vv → patSize p ≤ vvalueSize vv
  | .pattern q, p, hp => by
    have := patPats_size q p (by simpa [vvaluePats] using hp)
    simp only [vvalueSize]; omega
  | .variantList vl, p, hp => by
    have := vlPats_size vl p (by simpa [vvaluePats] using hp)
    simp only [vvalueSize]; omega

theorem vlPats_size : ∀ (vl : VariantList) (p : Pattern), p ∈ vlPats vl → patSize p ≤ vlSize vl
  | .mk vs, p, hp => by
    have := variantSeqPats_size vs p (by simpa [vlPats] using hp)
    simp only [vlSize]; omega

end

theorem nvPats_size (nv : NodeValue) (p : Pattern) (hp : p ∈ nvPats nv) :
    patSize p ≤ nvSize nv := by
  cases nv with
  | pattern q =>
    have := patPats_size q p (by simpa [nvPats] using hp)
    simp only [nvSize]; omega
  | variantList vl =>
    have := vlPats_size vl p (by simpa [nvPats] using hp)
    simp only [nvSize]; omega

theorem entryPats_size (m : Entry) (p : Pattern) (hp : p ∈ entryPats m) :
    patSize p ≤ entrySize m := by
  match m with
  | .message (some nv) attrs =>
    have := nvPats_size nv p (by simpa [entryPats] using hp)
    simp only [entrySize]; omega
  | .message Option.none attrs => simp [entryPats] at hp
  | .term nv attrs =>
    have := nvPats_size nv p (by simpa [entryPats] using hp)
    simp only [entrySize]; omega
  | .attribute q =>
    have := patPats_size q p (by simpa [entryPats] using hp)
    simp only [entrySize]; omega

theorem storeLookup_mem {store : Store} {name : String} {m : Entry}
    (h : storeLookup store name = some m) : (name, m) ∈ store := by
  induction store with
  | nil => simp [storeLookup] at h
  | cons kv rest ih =>
    obtain ⟨k, v⟩ := kv
    simp only [storeLookup] at h
    split at h
    · rename_i hk
      subst hk
      simp [Option.some.injEq] at h
      simp [h]
    · exact List.mem_cons_of_mem _ (ih h)

theorem mem_foldr_pats {l : List (String × Entry)} {kv : String × Entry} (h : kv ∈ l) :
    entryPats kv.2 ⊆ l.foldr (fun kv acc => entryPats kv.2 ++ acc) [] := by
  induction l with
  | nil => simp at h
  | cons hd tl ih =>
    rcases List.mem_cons.mp h with rfl | h2
    · simp only [List.foldr]
      exact List.subset_append_left _ _
    · exact (ih h2).trans (List.subset_append_right _ _)

theorem mem_foldr_weight {l : List (String × Entry)} {kv : String × Entry} (h : kv ∈ l) :
    entrySize kv.2 ≤ l.foldr (fun kv acc => entrySize kv.2 + acc) 0 := by
  induction l with
  | nil => simp at h
  | cons hd tl ih =>
    rcases List.mem_cons.mp h with rfl | h2
    · simp only [List.foldr]; omega
    · have := ih h2
      simp only [List.foldr]; omega

theorem mem_foldr_pats_inv {l : List (String × Entry)} {p : Pattern}
    (h : p ∈ l.foldr (fun kv acc => entryPats kv.2 ++ acc) []) :
    ∃ kv ∈ l, p ∈ entryPats kv.2 := by
  induction l with
  | nil => simp at h
  | cons hd tl ih =>
    simp only [List.foldr, List.mem_append] at h
    rcases h with h | h
    · exact ⟨hd, List.mem_cons_self _ _, h⟩
    · obtain ⟨kv, hkv, hp⟩ := ih h
      exact ⟨kv, List.mem_cons_of_mem _ hkv, hp⟩

/-- Any entry of the stores contributes its patterns to `ctxPats` and
its weight to `totalWeight`. -/
theorem store_entry_facts {ctx : MessageContextData} {name : String} {m : Entry}
    (h : (name, m) ∈ ctx.messages ++ ctx.terms) :
    entryPats m ⊆ ctxPats ctx ∧ entrySize m + 16 ≤ totalWeight ctx := by
  constructor
  · exact @mem_foldr_pats _ (name, m) h
  · have h2 := @mem_foldr_weight _ (name, m) h
    dsimp only at h2
    simp only [totalWeight]; omega

/-- Any pattern of the context weighs at most the store total. -/
theorem ctxPats_size {ctx : MessageContextData} {p : Pattern} (h : p ∈ ctxPats ctx) :
    patSize p + 16 ≤ totalWeight ctx := by
  obtain ⟨kv, hkv, hp⟩ := @mem_foldr_pats_inv (ctx.messages ++ ctx.terms) _ h
  have h1 := entryPats_size kv.2 p hp
  have h2 := mem_foldr_weight hkv
  simp only [totalWeight]
  omega

/-- The count of context patterns whose pid is not on the dirty stack. -/
def remC (ctx : MessageContextData) (d : List Nat) : Nat :=
  ((ctxPats ctx).filter (fun q => decide (q.pid ∉ d))).length

theorem filter_length_mono {α : Type} (l : List α) (p q : α → Bool)
    (h : ∀ a, p a = true → q a = true) :
    (l.filter p).length ≤ (l.filter q).length := by
  induction l with
  | nil => simp
  | cons hd tl ih =>
    by_cases hp : p hd = true
    · simp [List.filter, hp, h hd hp]
      omega
    · simp only [List.filter, Bool.not_eq_true] at hp ⊢
      rw [hp]
      cases hq : q hd <;> simp <;> omega

theorem filter_length_lt {α : Type} (l : List α) (p q : α → Bool)
    (h : ∀ a, p a = true → q a = true) (a : α) (ha : a ∈ l)
    (hqa : q a = true) (hpa : p a = false) :
    (l.filter p).length < (l.filter q).length := by
  induction l with
  | nil => simp at ha
  | cons hd tl ih =>
    rcases List.mem_cons.mp ha with rfl | h2
    · simp only [List.filter, hpa, hqa]
      have := filter_length_mono tl p q h
      simp
      omega
    · by_cases hp : p hd = true
      · simp [List.filter, hp, h hd hp]
        exact ih h2
      · simp only [List.filter, Bool.not_eq_true] at hp ⊢
        rw [hp]
        have := ih h2
        cases hq : q hd <;> simp <;> omega

theorem remC_cons_succ_le {ctx : MessageContextData} {d : List Nat} {p : Pattern}
    (hp : p ∈ ctxPats ctx) (hd : p.pid ∉ d) :
    remC ctx (p.pid :: d) + 1 ≤ remC ctx d := by
  have := filter_length_lt (ctxPats ctx)
    (fun q => decide (q.pid ∉ (p.pid :: d))) (fun q => decide (q.pid ∉ d))
    (by
      intro a hna
      simp only [decide_eq_true_eq, List.mem_cons, not_or] at hna
      simp only [decide_eq_true_eq]
      exact hna.2)
    p hp
    (by simp only [decide_eq_true_eq]; exact hd)
    (by simp only [decide_eq_false_iff_not, not_not, List.mem_cons]
        exact Or.inl trivial)
  simp only [remC]
  omega

theorem lookupRefFinish_entry {ctx : MessageContextData} {cur : Escaper}
    {mid : String} {found : Option Entry} {st : St} {m : Entry} {ne : Escaper} {st2 : St}
    (h : lookupRefFinish ctx cur mid found st = (.entry m, ne, st2)) : found = some m := by
  unfold lookupRefFinish at h
  dsimp only at h
  split at h
  · simp at h
  · split at h
    · simp only [Prod.mk.injEq, RefResult.entry.injEq] at h
      rw [h.1]
    · simp at h

theorem pickStore_mem {ctx : MessageContextData} {n : String} {m : Entry}
    (h : storeLookup (pickStore ctx n) n = some m) :
    (n, m) ∈ ctx.messages ++ ctx.terms := by
  unfold pickStore at h
  split at h
  · exact List.mem_append_right _ (storeLookup_mem h)
  · exact List.mem_append_left _ (storeLookup_mem h)

theorem lookupReferencePlain_entry_mem {ctx : MessageContextData} {cur : Escaper}
    {name : String} {st : St} {m : Entry} {ne : Escaper} {st2 : St}
    (h : lookupReferencePlain ctx cur name st = (.entry m, ne, st2)) :
    (name, m) ∈ ctx.messages ++ ctx.terms := by
  unfold lookupReferencePlain at h
  split at h
  · rename_i m2 hl
    have := lookupRefFinish_entry h
    simp only [Option.some.injEq] at this
    rw [this] at hl
    exact pickStore_mem hl
  · have := lookupRefFinish_entry h
    simp at this

theorem lookupReference_entry_mem {ctx : MessageContextData} {cur : Escaper}
    {name : String} {attr : Option String} {st : St} {m : Entry} {ne : Escaper} {st2 : St}
    (h : lookupReference ctx cur name attr st = (.entry m, ne, st2)) :
    ∃ k, (k, m) ∈ ctx.messages ++ ctx.terms := by
  unfold lookupReference at h
  match attr with
  | Option.none => exact ⟨name, lookupReferencePlain_entry_mem h⟩
  | some a =>
    dsimp only at h
    split at h
    · rename_i m2 hl
      have := lookupRefFinish_entry h
      simp only [Option.some.injEq] at this
      rw [this] at hl
      exact ⟨_, pickStore_mem hl⟩
    · split at h
      · exact ⟨name, lookupReferencePlain_entry_mem h⟩
      · have := lookupRefFinish_entry h
        simp at this

/-- A store entry with a variant-list value gives its patterns and a
strict weight bound. -/
theorem valueOf_variantList {m : Entry} {vl : VariantList}
    (h : m.valueOf = some (.variantList vl)) :
    vlPats vl ⊆ entryPats m ∧ vlSize vl + 2 ≤ entrySize m := by
  match m with
  | .message (some nv) attrs =>
    simp only [Entry.valueOf, Option.some.injEq] at h
    cases nv with
    | pattern p => simp at h
    | variantList vl2 =>
      simp only [NodeValue.variantList.injEq] at h
      subst h
      exact ⟨by simp [entryPats, nvPats], by simp only [entrySize, nvSize]; omega⟩
  | .message Option.none attrs => simp [Entry.valueOf] at h
  | .term nv attrs =>
    simp only [Entry.valueOf, Option.some.injEq] at h
    cases nv with
    | pattern p => simp at h
    | variantList vl2 =>
      simp only [NodeValue.variantList.injEq] at h
      subst h
      exact ⟨by simp [entryPats, nvPats], by simp only [entrySize, nvSize]; omega⟩
  | .attribute p =>
    simp only [Entry.valueOf, Option.some.injEq] at h
    simp at h

theorem firstMatchVariant_facts {locale : LocaleAdapter} {k : FluentValue} :
    ∀ {s : VariantSeq} {v : Variant}, firstMatchVariant locale k s = some v →
      vvaluePats v.value ⊆ variantSeqPats s ∧ vvalueSize v.value + 2 ≤ variantSeqSize s
  | .nil, v, h => by simp [firstMatchVariant] at h
  | .cons v2 rest, v, h => by
    simp only [firstMatchVariant] at h
    split at h
    · simp only [Option.some.injEq] at h
      subst h
      refine ⟨?_, ?_⟩
      · rw [← variantPats_eq]
        simp only [variantSeqPats]
        exact List.subset_append_left _ _
      · have := variantSize_eq v2
        have := variantSeqSize_pos rest
        simp only [variantSeqSize]
        omega
    · obtain ⟨h1, h2⟩ := firstMatchVariant_facts h
      refine ⟨?_, ?_⟩
      · refine h1.trans ?_
        simp only [variantSeqPats]
        exact List.subset_append_right _ _
      · have := variantSize_eq v2
        have := vvalueSize_pos v2.value
        simp only [variantSeqSize]
        omega

theorem lastDefaultVariant_facts :
    ∀ {s : VariantSeq} {v : Variant}, lastDefaultVariant s = some v →
      vvaluePats v.value ⊆ variantSeqPats s ∧ vvalueSize v.value + 2 ≤ variantSeqSize s
  | .nil, v, h => by simp [lastDefaultVariant] at h
  | .cons v2 rest, v, h => by
    simp only [lastDefaultVariant] at h
    split at h
    · rename_i d hd
      simp only [Option.some.injEq] at h
      subst h
      obtain ⟨h1, h2⟩ := lastDefaultVariant_facts hd
      refine ⟨?_, ?_⟩
      · refine h1.trans ?_
        simp only [variantSeqPats]
        exact List.subset_append_right _ _
      · have := variantSize_eq v2
        have := vvalueSize_pos v2.value
        simp only [variantSeqSize]
        omega
    · split at h
      · simp only [Option.some.injEq] at h
        subst h
        refine ⟨?_, ?_⟩
        · rw [← variantPats_eq]
          simp only [variantSeqPats]
          exact List.subset_append_left _ _
        · have := variantSize_eq v2
          have := variantSeqSize_pos rest
          simp only [variantSeqSize]
          omega
      · simp at h

theorem firstDefaultVariant_facts :
    ∀ {s : VariantSeq} {v : Variant}, firstDefaultVariant s = some v →
      vvaluePats v.value ⊆ variantSeqPats s ∧ vvalueSize v.value + 2 ≤ variantSeqSize s
  | .nil, v, h => by simp [firstDefaultVariant] at h
  | .cons v2 rest, v, h => by
    simp only [firstDefaultVariant] at h
    split at h
    · simp only [Option.some.injEq] at h
      subst h
      refine ⟨?_, ?_⟩
      · rw [← variantPats_eq]
        simp only [variantSeqPats]
        exact List.subset_append_left _ _
      · have := variantSize_eq v2
        have := variantSeqSize_pos rest
        simp only [variantSeqSize]
        omega
    · obtain ⟨h1, h2⟩ := firstDefaultVariant_facts h
      refine ⟨?_, ?_⟩
      · refine h1.trans ?_
        simp only [variantSeqPats]
        exact List.subset_append_right _ _
      · have := variantSize_eq v2
        have := vvalueSize_pos v2.value
        simp only [variantSeqSize]
        omega

/-- The per-dirty-entry budget of the termination measure. -/
def KW (ctx : MessageContextData) : Nat := 3 * totalWeight ctx + 48

theorem ne_error_of_ne {α β : Type} {er : Raised}
    (h : (Except.error er : Except Raised α) ≠ Except.error Raised.fuelExhausted) :
    (Except.error er : Except Raised β) ≠ Except.error Raised.fuelExhausted := by
  intro hcontra
  apply h
  injection hcontra with h2
  rw [h2]

/-- Fuel sufficiency: every resolver function returns without exhausting
the fuel as soon as the fuel dominates
`remC ctx d * KW ctx + (node weight) + (function bonus)`.  The measure
drops at every structural step, and crossing into a pattern's body pays
one `KW` from the dirty-count component (re-entry of a dirty pattern
stops immediately with the cycle error), so only finitely much fuel is
ever needed. -/
theorem fuelSufficient : ∀ fuel : Nat,
    (∀ ctx esc args e d st, exprPats e ⊆ ctxPats ctx →
      remC ctx d * KW ctx + exprSize e + 2 * totalWeight ctx + 24 ≤ fuel →
      handleExpr fuel ctx esc args e d st ≠ .error .fuelExhausted) ∧
    (∀ ctx esc args m d st, entryPats m ⊆ ctxPats ctx →
      remC ctx d * KW ctx + entrySize m + totalWeight ctx + 32 ≤ fuel →
      handleEntry fuel ctx esc args m d st ≠ .error .fuelExhausted) ∧
    (∀ ctx esc args nv d st, nvPats nv ⊆ ctxPats ctx →
      remC ctx d * KW ctx + nvSize nv + totalWeight ctx + 24 ≤ fuel →
      handleNodeValue fuel ctx esc args nv d st ≠ .error .fuelExhausted) ∧
    (∀ ctx esc args p d st, patPats p ⊆ ctxPats ctx →
      remC ctx d * KW ctx + patSize p + totalWeight ctx + 8 ≤ fuel →
      handlePattern fuel ctx esc args p d st ≠ .error .fuelExhausted) ∧
    (∀ ctx esc args useIso els d st, elemSeqPats els ⊆ ctxPats ctx →
      remC ctx d * KW ctx + elemSeqSize els + 2 * totalWeight ctx + 24 ≤ fuel →
      renderElements fuel ctx esc args useIso els d st ≠ .error .fuelExhausted) ∧
    (∀ ctx esc args el d st, elemPats el ⊆ ctxPats ctx →
      remC ctx d * KW ctx + elemSize el + 2 * totalWeight ctx + 24 ≤ fuel →
      fullyResolveElement fuel ctx esc args el d st ≠ .error .fuelExhausted) ∧
    (∀ ctx esc args vl key d st, vlPats vl ⊆ ctxPats ctx →
      remC ctx d * KW ctx + vlSize vl + totalWeight ctx + 20 ≤ fuel →
      selectFromVariantList fuel ctx esc args vl key d st ≠ .error .fuelExhausted) ∧
    (∀ ctx esc args variants key d st, variantSeqPats variants ⊆ ctxPats ctx →
      remC ctx d * KW ctx + variantSeqSize variants + 2 * totalWeight ctx + 24 ≤ fuel →
      selectFromSelect fuel ctx esc args variants key d st ≠ .error .fuelExhausted) ∧
    (∀ ctx esc args vv d st, vvaluePats vv ⊆ ctxPats ctx →
      remC ctx d * KW ctx + vvalueSize vv + totalWeight ctx + 20 ≤ fuel →
      handleVariantValue fuel ctx esc args vv d st ≠ .error .fuelExhausted) ∧
    (∀ ctx esc args es d st, exprSeqPats es ⊆ ctxPats ctx →
      remC ctx d * KW ctx + exprSeqSize es + 2 * totalWeight ctx + 24 ≤ fuel →
      evalExprs fuel ctx esc args es d st ≠ .error .fuelExhausted) ∧
    (∀ ctx esc args ns d st, namedSeqPats ns ⊆ ctxPats ctx →
      remC ctx d * KW ctx + namedSeqSize ns + 2 * totalWeight ctx + 24 ≤ fuel →
      evalNamed fuel ctx esc args ns d st ≠ .error .fuelExhausted) := by
  intro fuel
  induction fuel with
  | zero =>
    refine ⟨fun ctx esc args e d st hsub hth => absurd hth (by omega),
      fun ctx esc args m d st hsub hth => absurd hth (by omega),
      fun ctx esc args nv d st hsub hth => absurd hth (by omega),
      fun ctx esc args p d st hsub hth => absurd hth (by omega),
      fun ctx esc args useIso els d st hsub hth => absurd hth (by omega),
      fun ctx esc args el d st hsub hth => absurd hth (by omega),
      fun ctx esc args vl key d st hsub hth => absurd hth (by omega),
      fun ctx esc args variants key d st hsub hth => absurd hth (by omega),
      fun ctx esc args vv d st hsub hth => absurd hth (by omega),
      fun ctx esc args es d st hsub hth => absurd hth (by omega),
      fun ctx esc args ns d st hsub hth => absurd hth (by omega)⟩
  | succ fuel ih =>
    obtain ⟨ihE, ihM, ihNV, ihP, ihR, ihF, ihSVL, ihSS, ihVV, ihEE, ihEN⟩ := ih
    refine ⟨fun ctx esc args e d st hsub hth => ?_, fun ctx esc args m d st hsub hth => ?_,
      fun ctx esc args nv d st hsub hth => ?_, fun ctx esc args p d st hsub hth => ?_,
      fun ctx esc args useIso els d st hsub hth => ?_, fun ctx esc args el d st hsub hth => ?_,
      fun ctx esc args vl key d st hsub hth => ?_,
      fun ctx esc args variants key d st hsub hth => ?_,
      fun ctx esc args vv d st hsub hth => ?_, fun ctx esc args es d st hsub hth => ?_,
      fun ctx esc args ns d st hsub hth => ?_⟩
    · -- handleExpr
      cases e with
      | stringLiteral s => simp [handleExpr]
      | numberLiteral s => simp [handleExpr]
      | variableReference name =>
        simp only [handleExpr]
        split <;> simp
      | messageReference id =>
        simp only [handleExpr, exprSize] at hth ⊢
        split
        · simp
        · rename_i m ne st1 heq
          obtain ⟨k, hk⟩ := lookupReference_entry_mem heq
          obtain ⟨hsubm, hwm⟩ := store_entry_facts hk
          exact ihM ctx ne args m d st1 hsubm (by omega)
      | termReference id =>
        simp only [handleExpr, exprSize] at hth ⊢
        split
        · simp
        · rename_i m ne st1 heq
          obtain ⟨k, hk⟩ := lookupReference_entry_mem heq
          obtain ⟨hsubm, hwm⟩ := store_entry_facts hk
          exact ihM ctx ne args m d st1 hsubm (by omega)
      | attributeExpression ref name =>
        simp only [handleExpr, exprSize] at hth ⊢
        split
        · simp
        · rename_i m ne st1 heq
          obtain ⟨k, hk⟩ := lookupReference_entry_mem heq
          obtain ⟨hsubm, hwm⟩ := store_entry_facts hk
          exact ihM ctx ne args m d st1 hsubm (by omega)
      | variantExpression ref key =>
        simp only [handleExpr, exprSize] at hth ⊢
        split
        · simp
        · rename_i m ne st1 heq
          obtain ⟨k, hk⟩ := lookupReference_entry_mem heq
          obtain ⟨hsubm, hwm⟩ := store_entry_facts hk
          split
          · rename_i vl hvl
            obtain ⟨hsvl, hwvl⟩ := valueOf_variantList hvl
            exact ihSVL ctx ne args vl (some (.str key)) d st1 (hsvl.trans hsubm) (by omega)
          · simp
      | selectExpression sel variants =>
        simp only [handleExpr]
        simp only [exprPats] at hsub
        simp only [exprSize] at hth
        have hpos := variantSeqSize_pos variants
        have hpos2 := exprSize_pos sel
        split
        · rename_i er heq
          have h1 := ihE ctx esc args sel d st ((List.subset_append_left _ _).trans hsub) (by omega)
          rw [heq] at h1
          exact ne_error_of_ne h1
        · rename_i kv st1 heq
          exact ihSS ctx esc args variants kv d st1
            ((List.subset_append_right _ _).trans hsub) (by omega)
      | callExpression fname pos named =>
        simp only [handleExpr]
        simp only [exprPats] at hsub
        simp only [exprSize] at hth
        have hpos := exprSeqSize_pos pos
        have hpos2 := namedSeqSize_pos named
        split
        · simp
        · rename_i fn hf
          split
          · rename_i er heq
            have h1 := ihEE ctx esc args pos d st
              ((List.subset_append_left _ _).trans hsub) (by omega)
            rw [heq] at h1
            exact ne_error_of_ne h1
          · rename_i argVals st1 heq
            split
            · rename_i er heq2
              have h2 := ihEN ctx esc args named d st1
                ((List.subset_append_right _ _).trans hsub) (by omega)
              rw [heq2] at h2
              exact ne_error_of_ne h2
            · rename_i kwargVals st2 heq2
              split <;> simp
    · -- handleEntry
      match m with
      | .message (some nv) attrs =>
        simp only [handleEntry]
        simp only [entryPats] at hsub
        simp only [entrySize] at hth
        exact ihNV ctx esc args nv d st hsub (by omega)
      | .message Option.none attrs => simp [handleEntry]
      | .term nv attrs =>
        simp only [handleEntry]
        simp only [entryPats] at hsub
        simp only [entrySize] at hth
        exact ihNV ctx esc args nv d st hsub (by omega)
      | .attribute p =>
        simp only [handleEntry]
        simp only [entryPats] at hsub
        simp only [entrySize] at hth
        exact ihP ctx esc args p d st hsub (by omega)
    · -- handleNodeValue
      cases nv with
      | pattern p =>
        simp only [handleNodeValue]
        simp only [nvPats] at hsub
        simp only [nvSize] at hth
        exact ihP ctx esc args p d st hsub (by omega)
      | variantList vl =>
        simp only [handleNodeValue]
        simp only [nvPats] at hsub
        simp only [nvSize] at hth
        exact ihSVL ctx esc args vl Option.none d st hsub (by omega)
    · -- handlePattern
      simp only [handlePattern]
      split
      · simp
      · rename_i hnd
        have hmem : p ∈ ctxPats ctx := hsub (patPats_self p)
        have hw := ctxPats_size hmem
        have hcnt := remC_cons_succ_le hmem hnd
        have hmul := Nat.mul_le_mul_right (KW ctx) hcnt
        rw [Nat.succ_mul] at hmul
        have hpe := patSize_eq p
        split
        · rename_i er heq
          have h1 := ihR ctx esc args
            (effectiveIsolation ctx esc && decide (elemSeqLen p.elements > 1))
            p.elements (p.pid :: d) st ((patPats_elems p).trans hsub)
            (by simp only [KW] at hmul hth ⊢; omega)
          rw [heq] at h1
          exact ne_error_of_ne h1
        · simp
    · -- renderElements
      match els with
      | .nil => simp [renderElements]
      | .cons (.textElement t) rest =>
        simp only [renderElements]
        simp only [elemSeqPats] at hsub
        simp only [elemSeqSize] at hth
        have hpos := elemSeqSize_pos rest
        have hpos2 := elemSize_pos (.textElement t)
        split
        · split
          · split
            · rename_i er heq
              have h1 := fullyResolveValue_ne_fuel esc ctx.locale (.none Option.none)
              rw [heq] at h1
              exact ne_error_of_ne h1
            · simp
          · simp
        · split
          · rename_i er heq
            have h1 := ihR ctx esc args useIso rest d
              { st with partCount := st.partCount + 1 }
              ((List.subset_append_right _ _).trans hsub) (by omega)
            rw [heq] at h1
            exact ne_error_of_ne h1
          · simp
      | .cons (.placeable eexp) rest =>
        simp only [renderElements]
        simp only [elemSeqPats] at hsub
        simp only [elemSeqSize] at hth
        have hpos := elemSeqSize_pos rest
        have hpos2 := elemSize_pos (.placeable eexp)
        split
        · split
          · split
            · rename_i er heq
              have h1 := fullyResolveValue_ne_fuel esc ctx.locale (.none Option.none)
              rw [heq] at h1
              exact ne_error_of_ne h1
            · simp
          · simp
        · split
          · rename_i er heq
            have h1 := ihF ctx esc args (.placeable eexp) d
              { st with partCount := st.partCount + 1 }
              ((List.subset_append_left _ _).trans hsub) (by omega)
            rw [heq] at h1
            exact ne_error_of_ne h1
          · rename_i part0 st2 heq
            split
            · rename_i er heq2
              have h2 := ihR ctx esc args useIso rest d (truncateAndRecord part0 st2).2
                ((List.subset_append_right _ _).trans hsub) (by omega)
              rw [heq2] at h2
              exact ne_error_of_ne h2
            · simp
    · -- fullyResolveElement
      match el with
      | .textElement t =>
        simp only [fullyResolveElement]
        split
        · rename_i er heq
          have h1 := fullyResolveValue_ne_fuel esc ctx.locale (esc.markEscaped t)
          rw [heq] at h1
          exact ne_error_of_ne h1
        · simp
      | .placeable e =>
        simp only [fullyResolveElement]
        simp only [elemPats] at hsub
        simp only [elemSize] at hth
        split
        · rename_i er heq
          have h1 := ihE ctx esc args e d st hsub (by omega)
          rw [heq] at h1
          exact ne_error_of_ne h1
        · rename_i v st1 heq
          split
          · rename_i er heq2
            have h2 := fullyResolveValue_ne_fuel esc ctx.locale v
            rw [heq2] at h2
            exact ne_error_of_ne h2
          · simp
    · -- selectFromVariantList
      have hvp := vlPats_eq vl
      have hvs := vlSize_eq vl
      cases key with
      | none =>
        simp only [selectFromVariantList]
        split
        · rename_i v heq
          obtain ⟨hs, hw⟩ := firstDefaultVariant_facts heq
          refine ihVV ctx esc args v.value d st ?_ (by omega)
          rw [← hvp] at hs
          exact hs.trans hsub
        · simp
      | some k =>
        simp only [selectFromVariantList]
        split
        · rename_i v heq
          obtain ⟨hs, hw⟩ := firstMatchVariant_facts heq
          refine ihVV ctx esc args v.value d st ?_ (by omega)
          rw [← hvp] at hs
          exact hs.trans hsub
        · split
          · rename_i v heq
            obtain ⟨hs, hw⟩ := lastDefaultVariant_facts heq
            refine ihVV ctx esc args v.value d (unknownVariantRecord k st) ?_ (by omega)
            rw [← hvp] at hs
            exact hs.trans hsub
          · simp
    · -- selectFromSelect
      simp only [selectFromSelect]
      split
      · rename_i v heq
        obtain ⟨hs, hw⟩ := firstMatchVariant_facts heq
        exact ihVV ctx esc args v.value d st (hs.trans hsub) (by omega)
      · split
        · rename_i v heq
          obtain ⟨hs, hw⟩ := lastDefaultVariant_facts heq
          exact ihVV ctx esc args v.value d st (hs.trans hsub) (by omega)
        · simp
    · -- handleVariantValue
      cases vv with
      | pattern p =>
        simp only [handleVariantValue]
        simp only [vvaluePats] at hsub
        simp only [vvalueSize] at hth
        exact ihP ctx esc args p d st hsub (by omega)
      | variantList vl =>
        simp only [handleVariantValue]
        simp only [vvaluePats] at hsub
        simp only [vvalueSize] at hth
        exact ihSVL ctx esc args vl Option.none d st hsub (by omega)
    · -- evalExprs
      match es with
      | .nil => simp [evalExprs]
      | .cons e rest =>
        simp only [evalExprs]
        simp only [exprSeqPats] at hsub
        simp only [exprSeqSize] at hth
        have hpos := exprSeqSize_pos rest
        have hpos2 := exprSize_pos e
        split
        · rename_i er heq
          have h1 := ihE ctx esc args e d st
            ((List.subset_append_left _ _).trans hsub) (by omega)
          rw [heq] at h1
          exact ne_error_of_ne h1
        · rename_i v st1 heq
          split
          · rename_i er heq2
            have h2 := ihEE ctx esc args rest d st1
              ((List.subset_append_right _ _).trans hsub) (by omega)
            rw [heq2] at h2
            exact ne_error_of_ne h2
          · simp
    · -- evalNamed
      match ns with
      | .nil => simp [evalNamed]
      | .cons name e rest =>
        simp only [evalNamed]
        simp only [namedSeqPats] at hsub
        simp only [namedSeqSize] at hth
        have hpos := namedSeqSize_pos rest
        have hpos2 := exprSize_pos e
        split
        · rename_i er heq
          have h1 := ihE ctx esc args e d st
            ((List.subset_append_left _ _).trans hsub) (by omega)
          rw [heq] at h1
          exact ne_error_of_ne h1
        · rename_i v st1 heq
          split
          · rename_i er heq2
            have h2 := ihEN ctx esc args rest d st1
              ((List.subset_append_right _ _).trans hsub) (by omega)
            rw [heq2] at h2
            exact ne_error_of_ne h2
          · simp

/-- Top-level termination: with the computed fuel, `resolve` never runs
out — its outcome is always a genuine value or a genuine Python
exception, for every context, id and argument mapping. -/
theorem resolve_ne_fuelExhausted (ctx : MessageContextData) (messageId : String)
    (args : List (String × FluentValue)) (errs : List FluentError) :
    resolve ctx messageId args errs ≠ .error .fuelExhausted := by
  unfold resolve
  split
  · simp
  · rename_i message hlk
    have hmem := List.mem_append_left ctx.terms (storeLookup_mem hlk)
    obtain ⟨hsubm, hwm⟩ := store_entry_facts hmem
    have hrem : remC ctx [] ≤ (ctxPats ctx).length := List.length_filter_le _ _
    have hmul := Nat.mul_le_mul_right (KW ctx) hrem
    have hth : remC ctx [] * KW ctx + entrySize message + totalWeight ctx + 32 ≤
        resolverFuel ctx := by
      simp only [resolverFuel, KW]
      simp only [KW] at hmul
      rw [Nat.add_mul]
      omega
    have h1 := (fuelSufficient (resolverFuel ctx)).2.1 ctx
      (escaperForMessage ctx.escapers messageId) args message [] ⟨errs, 0⟩ hsubm hth
    dsimp only
    split
    · rename_i er heq
      rw [heq] at h1
      exact ne_error_of_ne h1
    · rename_i v stf heq
      split
      · rename_i er heq2
        have h2 := fullyResolveValue_ne_fuel (escaperForMessage ctx.escapers messageId)
          ctx.locale v
        rw [heq2] at h2
        exact ne_error_of_ne h2
      · simp

/-!
Concrete instances used by the claim theorems and witnesses: an
English-like locale adapter and a few small contexts.
-/

/-- A concrete locale adapter (standing for babel's `en-US` services in
the concrete scenarios; the adapter is an external collaborator, so the
claims never depend on its internals). -/
def sampleLocale : LocaleAdapter where
  pluralForm := fun q => if q == 1 then "one" else "other"
  formatNumber := fun q => toString q.num
  formatDate := fun s => s

/-- A context with empty stores, default isolation, no user functions
and no escapers. -/
def emptyContext : MessageContextData where
  locale := sampleLocale
  functions := []
  useIsolating := true
  escapers := []
  messages := []
  terms := []
  parsingIssues := []

/-- The mutually recursive store `a = { b }`, `b = { a }` of the spec's
concrete scenario 4. -/
def cyclicContext : MessageContextData :=
  { emptyContext with messages :=
      [("a", .message (some (.pattern (.mk 1
          (.cons (.placeable (.messageReference "b")) .nil)))) []),
       ("b", .message (some (.pattern (.mk 2
          (.cons (.placeable (.messageReference "a")) .nil)))) [])] }

/-- A context whose message `m` has no value, only an attribute
(`m = ⟨no value⟩ .a = hi`). -/
def noValueContext : MessageContextData :=
  { emptyContext with messages :=
      [("m", .message Option.none [⟨"a", .mk 1 (.cons (.textElement "hi") .nil)⟩])] }

/-- A context whose message `m` references a missing message
(`m = { nope }`). -/
def unknownRefContext : MessageContextData :=
  { emptyContext with messages :=
      [("m", .message (some (.pattern (.mk 1
          (.cons (.placeable (.messageReference "nope")) .nil)))) [])] }

/-- C2: resolution of every message terminates.  (1) A pattern already
in the `dirty` set appends a `FluentCyclicReferenceError` and returns
the none sentinel instead of recursing.  (2) A pattern not in the set
renders its elements with the set extended by its id — and only those:
the continuation observes the original set, which is the add-on-entry /
remove-on-exit discipline.  (3) With the computed fuel, `resolve` never
runs out, for every context, id and argument mapping.  (4) The mutually
recursive store `a = { b }`, `b = { a }` formats `a` to the none
rendering with exactly one cyclic-reference error. -/
theorem c2_cycle_detection_terminates :
    (∀ fuel ctx esc args p d st, p.pid ∈ d →
      handlePattern (fuel + 1) ctx esc args p d st =
        .ok (.none Option.none, st.addError (.cyclicReferenceError "Cyclic reference"))) ∧
    (∀ fuel ctx esc args p d st, p.pid ∉ d →
      handlePattern (fuel + 1) ctx esc args p d st =
        match renderElements fuel ctx esc args
            (effectiveIsolation ctx esc && decide (elemSeqLen p.elements > 1))
            p.elements (p.pid :: d) st with
        | .error er => .error er
        | .ok (parts, st1) => .ok (esc.stringJoin parts, st1)) ∧
    (∀ ctx messageId args errs,
      resolve ctx messageId args errs ≠ .error .fuelExhausted) ∧
    interpretingFormat cyclicContext "a" [] =
      .ok (.str "???", [.cyclicReferenceError "Cyclic reference"]) := by
  refine ⟨?_, ?_, resolve_ne_fuelExhausted, by rfl⟩
  · intro fuel ctx esc args p d st hin
    simp only [handlePattern, if_pos hin]
  · intro fuel ctx esc args p d st hnotin
    simp only [handlePattern, if_neg hnotin]

/-- Witness for C2 at concrete inputs: re-entering the dirty pattern of
`cyclicContext` yields the cyclic error immediately, and the cyclic
resolution does not exhaust its fuel. -/
theorem c2_cycle_detection_terminates_witness :
    handlePattern 1 cyclicContext nullEscaper []
        (.mk 1 (.cons (.placeable (.messageReference "b")) .nil)) [1] ⟨[], 0⟩ =
      .ok (.none Option.none,
        St.addError ⟨[], 0⟩ (.cyclicReferenceError "Cyclic reference")) ∧
    resolve cyclicContext "a" [] [] ≠ .error .fuelExhausted :=
  ⟨c2_cycle_detection_terminates.1 0 cyclicContext nullEscaper []
      (.mk 1 (.cons (.placeable (.messageReference "b")) .nil)) [1] ⟨[], 0⟩
      (by simp [Pattern.pid]),
   c2_cycle_detection_terminates.2.2.1 cyclicContext "a" [] []⟩

/-- C10: a message that exists in the store but has no value resolves by
raising `LookupError("Message body not defined")` — the same exception
class as formatting a missing id — rather than appending to the error
list and returning a substitute. -/
theorem c10_no_value_raises :
    (∀ ctx messageId args (attrs : List FluentAttribute),
      storeLookup ctx.messages messageId = some (.message Option.none attrs) →
      interpretingFormat ctx messageId args =
        .error (.lookupError "Message body not defined")) ∧
    (∀ ctx messageId args,
      storeLookup ctx.messages messageId = Option.none →
      interpretingFormat ctx messageId args = .error (.lookupError messageId)) := by
  constructor
  · intro ctx messageId args attrs hlk
    obtain ⟨f, hf⟩ : ∃ f, resolverFuel ctx = f + 1 := by
      refine ⟨resolverFuel ctx - 1, ?_⟩
      simp only [resolverFuel]
      omega
    simp only [interpretingFormat, resolve, hlk, hf, handleEntry]
  · intro ctx messageId args hlk
    simp only [interpretingFormat, resolve, hlk]

/-- Witness for C10: the attributes-only message of `noValueContext`
raises, and a missing id raises the same class. -/
theorem c10_no_value_raises_witness :
    interpretingFormat noValueContext "m" [] =
      .error (.lookupError "Message body not defined") ∧
    interpretingFormat noValueContext "missing" [] =
      .error (.lookupError "missing") :=
  ⟨c10_no_value_raises.1 noValueContext "m" []
      [⟨"a", .mk 1 (.cons (.textElement "hi") .nil)⟩] (by rfl),
   c10_no_value_raises.2 noValueContext "missing" [] (by rfl)⟩

/-- C8, counterexample to the claim as stated: `m` is present in the
store of `noValueContext`, its resolution fails (undefined message
body), and yet `format` raises a `LookupError` instead of appending the
error and continuing — so "for all other resolution failures every
error is appended to the call's error list and rendering continues …
no error aborting the call" is false on this input. -/
theorem c8_counterexample :
    storeMem noValueContext.messages "m" = true ∧
    interpretingFormat noValueContext "m" [] =
      .error (.lookupError "Message body not defined") :=
  ⟨by rfl, by rfl⟩

/-- `m = { -t[k] }` referencing a term `-t = x` whose value is a plain
pattern, not a variant list: the variant expression's assertion
fails. -/
def assertContext : MessageContextData :=
  { emptyContext with
      messages := [("m", .message (some (.pattern (.mk 1
          (.cons (.placeable (.variantExpression "-t" "k")) .nil)))) [])],
      terms := [("-t", .term (.pattern (.mk 2 (.cons (.textElement "x") .nil))) [])] }

/-- C8 as amended: resolution is not abort-free.  (1) `format` on an id
absent from the message store raises the lookup failure to the caller.
(2) A present but attributes-only message (no value node) raises
`LookupError("Message body not defined")` — the counterexample's case,
here universally.  (3) When `resolve` does return a `(value, errors)`
pair, the caller's error list is only ever appended to, in order.
(4) A variant expression whose resolved target does not hold a
`VariantList` value fails the resolver's assert and aborts the call
with an `AssertionError` — concretely, `m = { -t[k] }` over the plain
term `-t = x` aborts `format`.  (5) An unsupported object reaching
`fully_resolve` (for example returned by a custom function) aborts with
the `singledispatch` `TypeError`.  (6) Reference failures, by contrast,
do not abort: a representative unknown message reference appends its
`FluentReferenceError` and rendering continues with the none-rendering
substitute. -/
theorem c8_error_propagation :
    (∀ ctx messageId args,
      storeLookup ctx.messages messageId = Option.none →
      interpretingFormat ctx messageId args = .error (.lookupError messageId)) ∧
    (∀ ctx messageId args errs (attrs : List FluentAttribute),
      storeLookup ctx.messages messageId = some (.message Option.none attrs) →
      resolve ctx messageId args errs =
        .error (.lookupError "Message body not defined")) ∧
    (∀ ctx messageId args errs v errs2,
      resolve ctx messageId args errs = .ok (v, errs2) →
      ∃ t, errs2 = errs ++ t) ∧
    (∀ (fuel : Nat) (ctx : MessageContextData) (esc : Escaper)
       (args : List (String × FluentValue)) (ref key : String) (d : List Nat)
       (st : St) (m : Entry) (newEsc : Escaper) (st1 : St),
      lookupReference ctx esc ref Option.none st = (.entry m, newEsc, st1) →
      (∀ vl, m.valueOf ≠ some (.variantList vl)) →
      handleExpr (fuel + 1) ctx esc args (.variantExpression ref key) d st =
        .error .assertionError) ∧
    interpretingFormat assertContext "m" [] = .error .assertionError ∧
    (∀ (esc : Escaper) (locale : LocaleAdapter) (ty : String),
      esc.isOutputType (.other ty) = false →
      fullyResolveValue esc locale (.other ty) =
        .error (.typeError ("Cannot handle object of type " ++ ty))) ∧
    interpretingFormat unknownRefContext "m" [] =
      .ok (.str "nope", [.referenceError "Unknown message: nope"]) := by
  refine ⟨?_, ?_, ?_, ?_, by rfl, ?_, by rfl⟩
  · intro ctx messageId args hlk
    simp only [interpretingFormat, resolve, hlk]
  · intro ctx messageId args errs attrs hlk
    obtain ⟨f, hf⟩ : ∃ f, resolverFuel ctx = f + 1 := by
      refine ⟨resolverFuel ctx - 1, ?_⟩
      simp only [resolverFuel]
      omega
    simp only [resolve, hlk, hf, handleEntry]
  · intro ctx messageId args errs v errs2 h
    unfold resolve at h
    split at h
    · exact absurd h (by simp)
    · rename_i m hlk
      dsimp only at h
      split at h
      · exact absurd h (by simp)
      · rename_i v1 st heq
        split at h
        · exact absurd h (by simp)
        · rename_i out heq2
          have hext := (extAll (resolverFuel ctx)).2.1 ctx
            (escaperForMessage ctx.escapers messageId) args m [] ⟨errs, 0⟩
          rw [heq] at hext
          obtain ⟨⟨t, ht⟩, hpc⟩ := hext
          simp only [Except.ok.injEq, Prod.mk.injEq] at h
          exact ⟨t, by rw [← h.2]; exact ht⟩
  · intro fuel ctx esc args ref key d st m newEsc st1 hlk hnv
    simp only [handleExpr]
    rw [hlk]
    dsimp only
    cases hv : m.valueOf with
    | none => rfl
    | some nv =>
      cases nv with
      | pattern p => rfl
      | variantList vl => exact absurd hv (hnv vl)
  · intro esc locale ty h
    simp [fullyResolveValue, fullyResolveValueAux, h, isTextType, handleValue, pyTypeName]

/-- Witness for C8 (amended): a missing id raises at a concrete input;
the error list of the concrete unknown-reference resolution extends the
(empty) caller list; the variant expression over the plain term of
`assertContext` aborts with the assertion failure; and an unsupported
object under the null escaper aborts with the `TypeError`. -/
theorem c8_error_propagation_witness :
    interpretingFormat emptyContext "absent" [] = .error (.lookupError "absent") ∧
    resolve noValueContext "m" [] [] = .error (.lookupError "Message body not defined") ∧
    (∃ t, [FluentError.referenceError "Unknown message: nope"] =
      ([] : List FluentError) ++ t) ∧
    handleExpr 10 assertContext nullEscaper [] (.variantExpression "-t" "k") [] ⟨[], 0⟩ =
      .error .assertionError ∧
    fullyResolveValue nullEscaper sampleLocale (.other "MyClass") =
      .error (.typeError ("Cannot handle object of type " ++ "MyClass")) :=
  ⟨c8_error_propagation.1 emptyContext "absent" [] (by rfl),
   c8_error_propagation.2.1 noValueContext "m" [] []
     [⟨"a", .mk 1 (.cons (.textElement "hi") .nil)⟩] (by rfl),
   c8_error_propagation.2.2.1 unknownRefContext "m" [] [] (.str "nope")
     [FluentError.referenceError "Unknown message: nope"] (by rfl),
   c8_error_propagation.2.2.2.1 9 assertContext nullEscaper [] "-t" "k" [] ⟨[], 0⟩
     (.term (.pattern (.mk 2 (.cons (.textElement "x") .nil))) []) nullEscaper ⟨[], 0⟩
     (by rfl) (fun vl => by simp [Entry.valueOf]),
   c8_error_propagation.2.2.2.2.2.1 nullEscaper sampleLocale "MyClass" (by rfl)⟩

/-- A message selecting on the external `$n`:
`m = { $n -> [1] A *[other] B }`. -/
def decSelectContext : MessageContextData :=
  { emptyContext with messages :=
      [("m", .message (some (.pattern (.mk 1 (.cons (.placeable
          (.selectExpression (.variableReference "n")
            (.cons (.mk (.numberLiteral "1")
                     (.pattern (.mk 2 (.cons (.textElement "A") .nil))) false)
            (.cons (.mk (.variantName "other")
                     (.pattern (.mk 3 (.cons (.textElement "B") .nil))) true)
            .nil)))) .nil)))) [])] }

/-- C6: the variant matching semantics of `match(selector, key)`, where
"numeric" is the source's `is_number` — `isinstance(val, (int, float))`,
so a `Decimal`-backed selector is NOT numeric even though it formats as
a number.  (1) No match when the selector is Python `None` or either
side is the `FluentNone` sentinel.  (2) Numeric equality on native
int/float values when both sides are numeric.  (3) A numeric selector
against a name key matches exactly when the CLDR plural category of the
selector under the context locale equals the name.  (4) A name selector
against a numeric key is rule 3 with the arguments swapped.  (5)
Otherwise Python `==`, in particular string equality on names.  (6) A
raw `Decimal` selector therefore never matches a number-literal key —
the swapped plural-category comparison against a `Decimal` is false —
nor a name key, so `{ $n -> [1] A *[other] B }` renders `A` for the
native `1` and falls to the default `B` for `Decimal("1")`. -/
theorem c6_match_semantics :
    (∀ (locale : LocaleAdapter) v2, matchVal locale Option.none v2 = false) ∧
    (∀ (locale : LocaleAdapter) oid v2, matchVal locale (some (.none oid)) v2 = false) ∧
    (∀ (locale : LocaleAdapter) v1 oid, matchVal locale (some v1) (.none oid) = false) ∧
    (∀ (locale : LocaleAdapter) (a b : ℚ),
      matchVal locale (some (.num a)) (.num b) = (a == b)) ∧
    (∀ (locale : LocaleAdapter) (a : ℚ) (s : String),
      matchVal locale (some (.num a)) (.str s) = (locale.pluralForm a == s)) ∧
    (∀ (locale : LocaleAdapter) (s : String) (b : ℚ),
      matchVal locale (some (.str s)) (.num b) = (locale.pluralForm b == s)) ∧
    (∀ (locale : LocaleAdapter) (s1 s2 : String),
      matchVal locale (some (.str s1)) (.str s2) = (s1 == s2)) ∧
    (∀ a : ℚ, isNumberVal (.dec a) = false) ∧
    (∀ (locale : LocaleAdapter) (a b : ℚ),
      matchVal locale (some (.dec a)) (.num b) = false) ∧
    (∀ (locale : LocaleAdapter) (a : ℚ) (s : String),
      matchVal locale (some (.dec a)) (.str s) = false) ∧
    interpretingFormat decSelectContext "m" [("n", .num 1)] = .ok (.str "A", []) ∧
    interpretingFormat decSelectContext "m" [("n", .dec 1)] = .ok (.str "B", []) := by
  refine ⟨?_, ?_, ?_, ?_, ?_, ?_, ?_, ?_, ?_, ?_, by rfl, by rfl⟩
  · intro locale v2
    simp [matchVal, isNoneSentinel]
  · intro locale oid v2
    simp [matchVal, isNoneSentinel]
  · intro locale v1 oid
    cases v1 <;> simp [matchVal, isNoneSentinel, isNumberVal, pyEq]
  · intro locale a b
    simp [matchVal, isNoneSentinel, isNumberVal, pyEq]
  · intro locale a s
    simp [matchVal, isNoneSentinel, isNumberVal, pyEq]
  · intro locale s b
    simp [matchVal, isNoneSentinel, isNumberVal, pyEq]
  · intro locale s1 s2
    simp [matchVal, isNoneSentinel, isNumberVal, pyEq]
  · intro a
    simp [isNumberVal]
  · intro locale a b
    simp [matchVal, isNoneSentinel, isNumberVal, pyEq]
  · intro locale a s
    simp [matchVal, isNoneSentinel, isNumberVal, pyEq]

/-- A concrete non-null escaper (modelled on the test-suite
`HtmlEscaper`): output values are tagged with its identity `1`. -/
def htmlEscaper : Escaper where
  eid := 1
  name := "HtmlEscaper"
  select := fun messageId => messageId == "inner-html"
  useIsolating := some false
  isOutputType := fun v =>
    match v with
    | .escaped 1 _ _ => true
    | _ => false
  markEscaped := fun s => .escaped 1 true s
  escape := fun v =>
    match v with
    | .str s => .escaped 1 true s
    | v => v
  stringJoin := fun parts => .escaped 1 true (String.join (parts.map textContent))

/-- A plain message referencing an HTML-escaped message:
`plain = Plain. { inner-html }` with `inner-html` selected by
`htmlEscaper`. -/
def crossEscaperContext : MessageContextData :=
  { emptyContext with
      escapers := [htmlEscaper]
      messages :=
        [("plain", .message (some (.pattern (.mk 1
            (.cons (.textElement "Plain. ")
            (.cons (.placeable (.messageReference "inner-html")) .nil))))) []),
         ("inner-html", .message (some (.pattern (.mk 2
            (.cons (.textElement "<b>hi</b>") .nil)))) [])] }

/-- C7: (1) two escapers are compatible exactly when the inner one is
the null escaper (object identity, modelled by the reserved eid 0) or
both are the same escaper object.  (2) When a reference resolves to a
present target whose selected escaper is incompatible with the caller's,
`lookup_reference` appends a `TypeError`, replaces the value with the
none sentinel carrying the target id, and keeps the caller's escaper.
(3) Concretely, the parent message still renders: `plain` formats to a
plain string with the reference replaced by its none rendering and one
`TypeError` collected. -/
theorem c7_escaper_compatibility :
    (∀ e1 e2 : Escaper, escapersCompatible e1 e2 = true ↔
      (e2.eid = nullEscaper.eid ∨ e1.eid = e2.eid)) ∧
    (∀ ctx (cur : Escaper) name m st,
      storeLookup (pickStore ctx name) name = some m →
      escapersCompatible cur (escaperForMessage ctx.escapers name) = false →
      lookupReference ctx cur name Option.none st =
        (.noneVal name, cur,
         st.addError (.typeError ("Escaper " ++ (escaperForMessage ctx.escapers name).name ++
           " for message " ++ name ++ " cannot be used from calling context with " ++
           cur.name ++ " escaper")))) ∧
    interpretingFormat crossEscaperContext "plain" [] =
      .ok (.str "Plain. ⁨inner-html⁩",
        [.typeError ("Escaper HtmlEscaper for message inner-html cannot be used " ++
          "from calling context with null_escaper escaper")]) := by
  refine ⟨?_, ?_, by rfl⟩
  · intro e1 e2
    simp only [escapersCompatible]
    split
    · rename_i hbeq
      simp only [true_iff]
      exact Or.inl (Nat.eq_of_beq_eq_true (by simpa using hbeq))
    · rename_i hbeq
      constructor
      · intro hb
        exact Or.inr (Nat.eq_of_beq_eq_true (by simpa using hb))
      · intro hor
        rcases hor with h | h
        · exact absurd (by simp [h] : (e2.eid == nullEscaper.eid) = true) hbeq
        · simp [h]
  · intro ctx cur name m st hlk hcompat
    simp only [lookupReference, lookupReferencePlain, hlk, lookupRefFinish, hcompat,
      Bool.not_false, if_true]

/-- Witness for C7: the incompatible crossing of `crossEscaperContext`
at its concrete store. -/
theorem c7_escaper_compatibility_witness :
    lookupReference crossEscaperContext nullEscaper "inner-html" Option.none ⟨[], 0⟩ =
      (.noneVal "inner-html", nullEscaper,
       St.addError ⟨[], 0⟩ (.typeError ("Escaper HtmlEscaper for message inner-html" ++
         " cannot be used from calling context with null_escaper escaper"))) ∧
    (escapersCompatible htmlEscaper nullEscaper = true ↔
      (nullEscaper.eid = nullEscaper.eid ∨ htmlEscaper.eid = nullEscaper.eid)) := by
  constructor
  · have h := c7_escaper_compatibility.2.1 crossEscaperContext nullEscaper "inner-html"
      (.message (some (.pattern (.mk 2 (.cons (.textElement "<b>hi</b>") .nil)))) [])
      ⟨[], 0⟩ (by rfl) (by rfl)
    rw [h]
    rfl
  · exact (c7_escaper_compatibility.1 htmlEscaper nullEscaper)

/-- C9: argument sanitization.  For the resolver's `handle_argument`:
a value of the current escaper's output type or a plain string passes
through unchanged; an integer/float/decimal is accepted as a
locale-aware number (the collapsed numeric value, rendered through
`locale.formatNumber` when handled) and a date/datetime as a
locale-aware date; any other value appends
`TypeError("Unsupported external type: name, type")` and yields the
none sentinel carrying the argument name.  The compiled-code runtime's
`handle_argument` wraps numbers/dates the same way; its unsupported
fallback records the same `TypeError` and returns the bare name, whose
rendering coincides with the none sentinel's
(`noneFormat (some name) = name`). -/
theorem c9_handle_argument :
    (∀ (esc : Escaper) arg name st, esc.isOutputType arg = true →
      handleArgument esc arg name st = (arg, st)) ∧
    (∀ (esc : Escaper) s name st, handleArgument esc (.str s) name st = (.str s, st)) ∧
    (∀ (esc : Escaper) (q : ℚ) name st,
      handleArgument esc (.num q) name st = (.num q, st)) ∧
    (∀ (locale : LocaleAdapter) (q : ℚ),
      handleValue locale (.num q) = .ok (.str (locale.formatNumber q))) ∧
    (∀ (esc : Escaper) dv name st,
      handleArgument esc (.date dv) name st = (.date dv, st)) ∧
    (∀ (locale : LocaleAdapter) dv,
      handleValue locale (.date dv) = .ok (.str (locale.formatDate dv))) ∧
    (∀ (esc : Escaper) ty name st, esc.isOutputType (.other ty) = false →
      handleArgument esc (.other ty) name st =
        (.none (some name),
         st.addError (.typeError ("Unsupported external type: " ++ name ++ ", " ++ ty)))) ∧
    (∀ outputTypeTest (q : ℚ) name errors,
      outputTypeTest (FluentValue.num q) = false →
      runtimeHandleArgument outputTypeTest (.num q) name errors = (.num q, errors)) ∧
    (∀ outputTypeTest dv name errors,
      outputTypeTest (FluentValue.date dv) = false →
      runtimeHandleArgument outputTypeTest (.date dv) name errors = (.date dv, errors)) ∧
    (∀ outputTypeTest ty name errors,
      outputTypeTest (FluentValue.other ty) = false →
      runtimeHandleArgument outputTypeTest (.other ty) name errors =
        (.str name,
         errors ++ [.typeError ("Unsupported external type: " ++ name ++ ", " ++ ty)])) ∧
    (∀ name, noneFormat (some name) = name) := by
  refine ⟨?_, ?_, ?_, ?_, ?_, ?_, ?_, ?_, ?_, ?_, ?_⟩
  · intro esc arg name st h
    simp [handleArgument, h]
  · intro esc s name st
    simp [handleArgument, argIsNative]
  · intro esc q name st
    simp [handleArgument, argIsNative]
  · intro locale q
    simp [handleValue]
  · intro esc dv name st
    simp [handleArgument, argIsNative]
  · intro locale dv
    simp [handleValue]
  · intro esc ty name st h
    simp [handleArgument, argIsNative, h, pyTypeName]
  · intro ot q name errors h
    simp [runtimeHandleArgument, h, isTextType]
  · intro ot dv name errors h
    simp [runtimeHandleArgument, h, isTextType]
  · intro ot ty name errors h
    simp [runtimeHandleArgument, h, isTextType, pyTypeName]
  · intro name
    simp [noneFormat]

/-- Witness for C9 at concrete inputs: an html-escaped value passes the
output-type check unchanged, and an unsupported object under the null
escaper records the `TypeError` and yields the none sentinel. -/
theorem c9_handle_argument_witness :
    handleArgument htmlEscaper (.escaped 1 true "x") "arg" ⟨[], 0⟩ =
      (.escaped 1 true "x", ⟨[], 0⟩) ∧
    handleArgument nullEscaper (.other "MyClass") "arg" ⟨[], 0⟩ =
      (.none (some "arg"),
       St.addError ⟨[], 0⟩
         (.typeError "Unsupported external type: arg, MyClass")) ∧
    runtimeHandleArgument nullEscaper.isOutputType (.num 3) "n" [] = (.num 3, []) :=
  ⟨c9_handle_argument.1 htmlEscaper (.escaped 1 true "x") "arg" ⟨[], 0⟩ (by rfl),
   c9_handle_argument.2.2.2.2.2.2.1 nullEscaper "MyClass" "arg" ⟨[], 0⟩ (by rfl),
   c9_handle_argument.2.2.2.2.2.2.2.1 nullEscaper.isOutputType 3 "n" [] (by rfl)⟩

/-- The shape of the parts list produced by the element loop of
`handle_pattern`: text elements contribute exactly their marked text (no
isolation characters), while each placeable contributes its resolved
value wrapped in escaped FSI/PDI exactly when the isolating flag is
set. -/
inductive PartsShape (esc : Escaper) (useIso : Bool) : ElemSeq → List FluentValue → Prop where
  | nil : PartsShape esc useIso .nil []
  | text (t : String) {rest : ElemSeq} {parts : List FluentValue} :
      PartsShape esc useIso rest parts →
      PartsShape esc useIso (.cons (.textElement t) rest) (esc.markEscaped t :: parts)
  | placeIso (e : Expression) (v : FluentValue) {rest : ElemSeq} {parts : List FluentValue} :
      useIso = true →
      PartsShape esc useIso rest parts →
      PartsShape esc useIso (.cons (.placeable e) rest)
        (esc.escape (.str FSI) :: v :: esc.escape (.str PDI) :: parts)
  | placeNoIso (e : Expression) (v : FluentValue) {rest : ElemSeq} {parts : List FluentValue} :
      useIso = false →
      PartsShape esc useIso rest parts →
      PartsShape esc useIso (.cons (.placeable e) rest) (v :: parts)

/-- As long as the part counter never crosses `MAX_PARTS`, the element
loop produces a parts list of the `PartsShape` of its element list. -/
theorem renderElements_shape :
    ∀ (els : ElemSeq) (fuel : Nat) (ctx : MessageContextData) (esc : Escaper)
      (args : List (String × FluentValue)) (useIso : Bool) (d : List Nat) (st : St)
      (parts : List FluentValue) (st2 : St),
      renderElements fuel ctx esc args useIso els d st = .ok (parts, st2) →
      st2.partCount ≤ MAX_PARTS →
      PartsShape esc useIso els parts
  | _, 0, _, _, _, _, _, _, _, _, h, _ => by
    simp only [renderElements] at h
    exact absurd h (by simp)
  | .nil, fuel + 1, ctx, esc, args, useIso, d, st, parts, st2, h, hpc => by
    simp only [renderElements, Except.ok.injEq, Prod.mk.injEq] at h
    rw [← h.1]
    exact .nil
  | .cons (.textElement t) rest, fuel + 1, ctx, esc, args, useIso, d, st, parts, st2, h, hpc => by
    simp only [renderElements] at h
    split at h
    · -- part counter crossed MAX_PARTS
      split at h
      · split at h
        · exact absurd h (by simp)
        · rename_i hover _ _ _
          simp only [Except.ok.injEq, Prod.mk.injEq] at h
          have : st2.partCount = st.partCount + 1 := by rw [← h.2]; rfl
          omega
      · rename_i hover _
        simp only [Except.ok.injEq, Prod.mk.injEq] at h
        have : st2.partCount = st.partCount + 1 := by rw [← h.2]
        omega
    · split at h
      · exact absurd h (by simp)
      · rename_i parts1 st1 heq
        simp only [Except.ok.injEq, Prod.mk.injEq] at h
        obtain ⟨hp, hs⟩ := h
        rw [← hp]
        exact .text t (renderElements_shape rest fuel ctx esc args useIso d _ parts1 st1
          heq (hs ▸ hpc))
  | .cons (.placeable e) rest, fuel + 1, ctx, esc, args, useIso, d, st, parts, st2, h, hpc => by
    simp only [renderElements] at h
    split at h
    · -- part counter crossed MAX_PARTS
      split at h
      · split at h
        · exact absurd h (by simp)
        · rename_i hover _ _ _
          simp only [Except.ok.injEq, Prod.mk.injEq] at h
          have : st2.partCount = st.partCount + 1 := by rw [← h.2]; rfl
          omega
      · rename_i hover _
        simp only [Except.ok.injEq, Prod.mk.injEq] at h
        have : st2.partCount = st.partCount + 1 := by rw [← h.2]
        omega
    · split at h
      · exact absurd h (by simp)
      · rename_i part0 stA heqA
        split at h
        · exact absurd h (by simp)
        · rename_i parts1 st1 heq
          simp only [Except.ok.injEq, Prod.mk.injEq] at h
          obtain ⟨hp, hs⟩ := h
          have hshape := renderElements_shape rest fuel ctx esc args useIso d _ parts1 st1
            heq (hs ▸ hpc)
          subst hp
          cases useIso with
          | true =>
            simp only [if_pos, List.cons_append, List.nil_append]
            exact .placeIso e _ rfl hshape
          | false =>
            simp only [if_neg, List.cons_append, List.nil_append, Bool.false_eq_true,
              ite_false]
            exact .placeNoIso e _ rfl hshape

/-- C4 (isolation placement): when `handle_pattern` succeeds on a
pattern not in `dirty` without exhausting the part budget, the rendered
value is the escaper's join of a parts list in which FSI/PDI wrapping
occurs around exactly the placeable-derived parts, exactly when the
effective isolation policy is on and the pattern has more than one
element; text parts are never wrapped. -/
theorem c4_isolation_placement (fuel : Nat) (ctx : MessageContextData) (esc : Escaper)
    (args : List (String × FluentValue)) (p : Pattern) (d : List Nat) (st : St)
    (v : FluentValue) (st2 : St)
    (hd : p.pid ∉ d)
    (h : handlePattern fuel ctx esc args p d st = .ok (v, st2))
    (hpc : st2.partCount ≤ MAX_PARTS) :
    ∃ parts, v = esc.stringJoin parts ∧
      PartsShape esc (effectiveIsolation ctx esc && decide (elemSeqLen p.elements > 1))
        p.elements parts := by
  match fuel with
  | 0 =>
    simp only [handlePattern] at h
    exact absurd h (by simp)
  | fuel + 1 =>
    rw [handlePattern, if_neg hd] at h
    dsimp only at h
    split at h
    · exact absurd h (by simp)
    · rename_i parts st1 heq
      simp only [Except.ok.injEq, Prod.mk.injEq] at h
      obtain ⟨hv, hs⟩ := h
      exact ⟨parts, hv.symm,
        renderElements_shape p.elements fuel ctx esc args _ _ st parts st1 heq (hs ▸ hpc)⟩

/-- A two-message context: `foo = Foo` and `bar = X { foo }`. -/
def fooBarContext : MessageContextData :=
  { emptyContext with messages :=
      [("foo", .message (some (.pattern (.mk 1 (.cons (.textElement "Foo") .nil)))) []),
       ("bar", .message (some (.pattern (.mk 2 (.cons (.textElement "X ")
          (.cons (.placeable (.messageReference "foo")) .nil))))) [])] }

/-- The pattern of `bar` in `fooBarContext`. -/
def barPattern : Pattern :=
  .mk 2 (.cons (.textElement "X ") (.cons (.placeable (.messageReference "foo")) .nil))

/-- Witness for C4 at `bar = X { foo }` under the null escaper with
isolation on: the rendered string "X ⁨Foo⁩" is the join of a parts list
of the required shape. -/
theorem c4_isolation_placement_witness :
    ∃ parts, FluentValue.str "X ⁨Foo⁩" = nullEscaper.stringJoin parts ∧
      PartsShape nullEscaper
        (effectiveIsolation fooBarContext nullEscaper && decide (elemSeqLen barPattern.elements > 1))
        barPattern.elements parts :=
  c4_isolation_placement 20 fooBarContext nullEscaper [] barPattern [] ⟨[], 0⟩
    (.str "X ⁨Foo⁩") ⟨[], 3⟩ (by simp [barPattern]) (by rfl) (by decide)

/-- A 2600-character text: longer than `MAX_PART_LENGTH`. -/
def longText : String := String.mk (List.replicate 2600 (Char.ofNat 97))

/-- A context whose message `long` is a single text element of 2600
characters. -/
def longTextContext : MessageContextData :=
  { emptyContext with messages :=
      [("long", .message (some (.pattern (.mk 1 (.cons (.textElement longText) .nil)))) [])] }

/-- C5 counterexample: the per-part length cap is only applied to
placeable-derived parts.  A text element of 2600 characters is appended
directly (the `TextElement` shortcut in `handle_pattern` skips the
`len(part)` check), so the formatted value is a part of length 2600 >
`MAX_PART_LENGTH` = 2500 and no `ValueError` is recorded — refuting
"no returned part is longer than MAX_PART_LENGTH". -/
theorem longText_length : longText.length = 2600 :=
  List.length_replicate 2600 (Char.ofNat 97)

theorem truncLongText :
    (truncateAndRecord (.str longText) ⟨[], 0⟩).1 =
      .str (String.mk (List.replicate 2500 (Char.ofNat 97))) := by
  rw [truncateAndRecord,
      show partLen (.str longText) = some 2600 from congrArg some longText_length]
  dsimp only
  rw [if_pos (by decide)]
  dsimp only [truncVal]
  rw [show longText.data = List.replicate 2600 (Char.ofNat 97) from rfl]
  simp only [List.take_replicate]
  rw [show min MAX_PART_LENGTH 2600 = 2500 from by decide]

theorem c5_counterexample :
    interpretingFormat longTextContext "long" [] = .ok (.str longText, []) ∧
    partLen (.str longText) = some 2600 ∧ 2600 > MAX_PART_LENGTH :=
  ⟨by rfl, congrArg some longText_length, by decide⟩

/-- C5 (resource limits, amended to placeable-derived parts): (1) the
element that takes the part counter past `MAX_PARTS` = 1000 records
exactly one `ValueError`, appends a single none-rendered part and stops;
(2) each further element only bumps the counter, adding no part and no
error; (3) every part that leaves the length check with a measurable
length is at most `MAX_PART_LENGTH` = 2500 characters; (4) a part whose
length exceeds `MAX_PART_LENGTH` records a `ValueError` and is truncated
to `MAX_PART_LENGTH` characters.  (Text elements bypass the length
check — see the counterexample.) -/
theorem c5_resource_limits :
    (∀ (fuel : Nat) (ctx : MessageContextData) (esc : Escaper)
       (args : List (String × FluentValue)) (useIso : Bool) (el : PatternElement)
       (rest : ElemSeq) (d : List Nat) (st : St) (v : FluentValue),
       st.partCount = MAX_PARTS →
       fullyResolveValue esc ctx.locale (.none Option.none) = .ok v →
       renderElements (fuel + 1) ctx esc args useIso (.cons el rest) d st =
         .ok ([v], ⟨st.errors ++ [.valueError "Too many parts in message (> 1000), aborting."],
                    st.partCount + 1⟩)) ∧
    (∀ (fuel : Nat) (ctx : MessageContextData) (esc : Escaper)
       (args : List (String × FluentValue)) (useIso : Bool) (el : PatternElement)
       (rest : ElemSeq) (d : List Nat) (st : St),
       st.partCount > MAX_PARTS →
       renderElements (fuel + 1) ctx esc args useIso (.cons el rest) d st =
         .ok ([], ⟨st.errors, st.partCount + 1⟩)) ∧
    (∀ (part : FluentValue) (st : St) (n : Nat),
       partLen ((truncateAndRecord part st).1) = some n → n ≤ MAX_PART_LENGTH) ∧
    (∀ (part : FluentValue) (st : St) (n : Nat),
       partLen part = some n → n > MAX_PART_LENGTH →
       truncateAndRecord part st =
         (truncVal MAX_PART_LENGTH part,
          st.addError (.valueError ("Too many characters in part, (" ++ toString n ++
            ", max allowed is " ++ toString MAX_PART_LENGTH ++ ")")))) := by
  refine ⟨?_, ?_, ?_, ?_⟩
  · intro fuel ctx esc args useIso el rest d st v hpc hres
    simp only [renderElements]
    rw [if_pos (show st.partCount + 1 > MAX_PARTS by
          simp only [MAX_PARTS] at hpc ⊢; omega),
        if_pos (show st.partCount + 1 = MAX_PARTS + 1 by
          simp only [MAX_PARTS] at hpc ⊢; omega), hres]
    rfl
  · intro fuel ctx esc args useIso el rest d st hpc
    simp only [renderElements]
    rw [if_pos (show st.partCount + 1 > MAX_PARTS by
          simp only [MAX_PARTS] at hpc ⊢; omega),
        if_neg (show ¬ st.partCount + 1 = MAX_PARTS + 1 by
          simp only [MAX_PARTS] at hpc ⊢; omega)]
  · intro part st n h
    match part with
    | .str s =>
      dsimp only [truncateAndRecord, partLen] at h
      by_cases hgt : s.length > MAX_PART_LENGTH
      · rw [if_pos hgt] at h
        dsimp only [partLen, truncVal] at h
        simp only [Option.some.injEq] at h
        rw [← h,
            show (String.mk (s.data.take MAX_PART_LENGTH)).length
              = (s.data.take MAX_PART_LENGTH).length from rfl,
            List.length_take]
        exact Nat.min_le_left _ _
      · rw [if_neg hgt] at h
        dsimp only [partLen] at h
        simp only [Option.some.injEq] at h
        simp only [MAX_PART_LENGTH] at hgt ⊢
        omega
    | .escaped eid true s =>
      dsimp only [truncateAndRecord, partLen] at h
      by_cases hgt : s.length > MAX_PART_LENGTH
      · rw [if_pos hgt] at h
        dsimp only [partLen, truncVal] at h
        simp only [Option.some.injEq] at h
        rw [← h,
            show (String.mk (s.data.take MAX_PART_LENGTH)).length
              = (s.data.take MAX_PART_LENGTH).length from rfl,
            List.length_take]
        exact Nat.min_le_left _ _
      · rw [if_neg hgt] at h
        dsimp only [partLen] at h
        simp only [Option.some.injEq] at h
        simp only [MAX_PART_LENGTH] at hgt ⊢
        omega
    | .escaped eid false s =>
      dsimp only [truncateAndRecord, partLen] at h
      exact absurd h (by simp)
    | .num q =>
      dsimp only [truncateAndRecord, partLen] at h
      exact absurd h (by simp)
    | .dec q =>
      dsimp only [truncateAndRecord, partLen] at h
      exact absurd h (by simp)
    | .date dt =>
      dsimp only [truncateAndRecord, partLen] at h
      exact absurd h (by simp)
    | .none nm =>
      dsimp only [truncateAndRecord, partLen] at h
      exact absurd h (by simp)
    | .other ty =>
      dsimp only [truncateAndRecord, partLen] at h
      exact absurd h (by simp)
  · intro part st n hlen hgt
    rw [truncateAndRecord, hlen]
    dsimp only
    rw [if_pos hgt]

/-- Witness for C5: the four clauses at concrete inputs — the 1001st
part on a one-element tail at part count 1000, the 1002nd at 1001, the
truncated 2600-character string measuring 2500, and the truncation
equation on the 2600-character string. -/
theorem c5_resource_limits_witness :
    renderElements 5 emptyContext nullEscaper [] false (.cons (.textElement "x") .nil) []
        ⟨[], 1000⟩ =
      .ok ([.str "???"],
           ⟨[] ++ [.valueError "Too many parts in message (> 1000), aborting."], 1000 + 1⟩) ∧
    renderElements 5 emptyContext nullEscaper [] false (.cons (.textElement "x") .nil) []
        ⟨[], 1001⟩ = .ok ([], ⟨[], 1001 + 1⟩) ∧
    (String.mk (List.replicate 2500 (Char.ofNat 97))).length ≤ MAX_PART_LENGTH ∧
    truncateAndRecord (.str longText) ⟨[], 0⟩ =
      (truncVal MAX_PART_LENGTH (.str longText),
       St.addError ⟨[], 0⟩ (.valueError ("Too many characters in part, (" ++ toString 2600 ++
         ", max allowed is " ++ toString MAX_PART_LENGTH ++ ")"))) :=
  ⟨c5_resource_limits.1 4 emptyContext nullEscaper [] false (.textElement "x") .nil []
     ⟨[], 1000⟩ (.str "???") (by rfl) (by rfl),
   c5_resource_limits.2.1 4 emptyContext nullEscaper [] false (.textElement "x") .nil []
     ⟨[], 1001⟩ (by decide),
   c5_resource_limits.2.2.1 (.str longText) ⟨[], 0⟩
     (String.mk (List.replicate 2500 (Char.ofNat 97))).length (by rw [truncLongText]; rfl),
   c5_resource_limits.2.2.2 (.str longText) ⟨[], 0⟩ 2600
     (congrArg some longText_length) (by decide)⟩

/-- `OrderedDict` assignment and lookup commute in the usual way. -/
theorem storeLookup_storeSet :
    ∀ (s : Store) (k : String) (e : Entry) (n : String),
      storeLookup (storeSet s k e) n = if k = n then some e else storeLookup s n
  | [], k, e, n => by
    simp only [storeSet, storeLookup]
  | (a, b) :: rest, k, e, n => by
    simp only [storeSet]
    by_cases hak : a = k
    · subst hak
      rw [if_pos rfl]
      simp only [storeLookup]
      by_cases han : a = n <;> simp [han]
    · rw [if_neg hak]
      simp only [storeLookup]
      by_cases han : a = n
      · subst han
        rw [if_pos rfl, if_neg (fun hkn => hak hkn.symm), if_pos rfl]
      · rw [if_neg han, if_neg han, storeLookup_storeSet rest k e n]

/-- A key present in a store stays present under assignments. -/
theorem storeMem_storeSet (s : Store) (k : String) (e : Entry) (n : String)
    (h : storeMem s n = true) : storeMem (storeSet s k e) n = true := by
  rw [storeMem, storeLookup_storeSet]
  by_cases hkn : k = n
  · rw [if_pos hkn]; rfl
  · rw [if_neg hkn]; exact h

/-- A key present in a store stays present when a list of assignments
is folded over it (`OrderedDict.update`). -/
theorem storeMem_foldl_set :
    ∀ (l : List (String × Entry)) (s : Store) (n : String),
      storeMem s n = true →
      storeMem (l.foldl (fun acc kv => storeSet acc kv.1 kv.2) s) n = true
  | [], s, n, h => h
  | (k, e) :: rest, s, n, h => by
    simp only [List.foldl_cons]
    exact storeMem_foldl_set rest (storeSet s k e) n (storeMem_storeSet s k e n h)

/-- Looking a present key up in the per-key image of a store finds the
image of that key. -/
theorem lookup_map_compiled {α : Type} (f : String → α) :
    ∀ (l : Store) (id : String), storeMem l id = true →
      List.lookup id (l.map (fun kv => (kv.1, f kv.1))) = some (f id)
  | [], id, h => by simp [storeMem, storeLookup] at h
  | (k, v) :: rest, id, h => by
    simp only [List.map_cons, List.lookup]
    by_cases hk : k = id
    · subst hk
      rw [beq_self_eq_true]
    · rw [show (id == k) = false from beq_eq_false_iff_ne.mpr (fun he => hk he.symm)]
      refine lookup_map_compiled f rest id ?_
      rw [storeMem, storeLookup, if_neg hk] at h
      exact h

/-- C1 (interpreter/compiler parity).  spec-modelled: `fluent/compiler.py`
is not under `src/`, so the compiled form of a message follows the
spec's words — one closure per entry of `all_messages` whose semantics
"MUST match the resolver output token-for-token on identical inputs",
modelled as the resolver itself.  For every message id present in the
store, the compiling context's `format` and the interpreting context's
`format` agree exactly: same value, same errors in the same order (and
the same raised lookup failure on the ids the hypothesis excludes). -/
theorem c1_parity (ctx : MessageContextData) (messageId : String)
    (args : List (String × FluentValue))
    (h : storeMem ctx.messages messageId = true) :
    compilingFormat ctx messageId args = interpretingFormat ctx messageId args := by
  have hall : storeMem (allMessages ctx) messageId = true :=
    storeMem_foldl_set ctx.terms ctx.messages messageId h
  rw [compilingFormat, compileMessages,
      lookup_map_compiled (compiledFunction ctx) (allMessages ctx) messageId hall]
  rfl

/-- Witness for C1 at the cyclic context's message `a`: both engines
return the none rendering and the one cyclic-reference error. -/
theorem c1_parity_witness :
    compilingFormat cyclicContext "a" [] = interpretingFormat cyclicContext "a" [] :=
  c1_parity cyclicContext "a" [] (by rfl)

/-- A sequence of dictionary assignments applied in order. -/
def foldWrites (w : List (String × Entry)) (s : Store) : Store :=
  w.foldl (fun acc kv => storeSet acc kv.1 kv.2) s

/-- The value left under a key by a sequence of assignments (the last
write of that key), if any. -/
def lastWrite : List (String × Entry) → String → Option Entry
  | [], _ => Option.none
  | (k, e) :: rest, n =>
    match lastWrite rest n with
    | some e2 => some e2
    | Option.none => if k = n then some e else Option.none

/-- The assignments `add_message_and_attrs_to_store` performs for one
item: the node under its id, then each attribute under `id.attr`. -/
def itemWrites (name : String) (item : Entry) : List (String × Entry) :=
  (name, item) ::
    item.attrsOf.map (fun a => (messageIdForAttr name a.id, .attribute a.value))

/-- The assignments a resource body performs on the message store. -/
def msgWrites : List ResourceItem → List (String × Entry)
  | [] => []
  | .message id v attrs :: rest => itemWrites id (.message v attrs) ++ msgWrites rest
  | .term _ _ _ :: rest => msgWrites rest
  | .junk _ :: rest => msgWrites rest

/-- The assignments a resource body performs on the term store. -/
def termWrites : List ResourceItem → List (String × Entry)
  | [] => []
  | .message _ _ _ :: rest => termWrites rest
  | .term id v attrs :: rest => itemWrites id (.term v attrs) ++ termWrites rest
  | .junk _ :: rest => termWrites rest

/-- The `FluentDuplicateMessageId` parsing issue `_add_message` records. -/
def dupIssue (name : String) : Option String × FluentError :=
  (some name,
   .duplicateMessageId ("Duplicate definition for \x27" ++ name ++ "\x27 added."))

/-- One duplicate-id issue per message or term item of a body, in body
order. -/
def dupIssues : List ResourceItem → List (Option String × FluentError)
  | [] => []
  | .message id _ _ :: rest => dupIssue id :: dupIssues rest
  | .term id _ _ :: rest => dupIssue id :: dupIssues rest
  | .junk _ :: rest => dupIssues rest

/-- A body with no junk items (junk records a fresh issue on every
load, so idempotence of issues is stated for junk-free bodies). -/
def noJunk : List ResourceItem → Bool
  | [] => true
  | .junk _ :: _ => false
  | _ :: rest => noJunk rest

/-- The message ids a body defines. -/
def msgIds : List ResourceItem → List String
  | [] => []
  | .message id _ _ :: rest => id :: msgIds rest
  | _ :: rest => msgIds rest

/-- The term ids a body defines. -/
def termIds : List ResourceItem → List String
  | [] => []
  | .term id _ _ :: rest => id :: termIds rest
  | _ :: rest => termIds rest

/-- An attribute key `parent.attr` is never the parent id itself. -/
theorem messageIdForAttr_ne (name a : String) : messageIdForAttr name a ≠ name := by
  intro h
  have h2 := congrArg String.length h
  simp only [messageIdForAttr, String.length_append] at h2
  have : ("." : String).length = 1 := rfl
  omega

/-- Looking up after a sequence of assignments: the last write of the
key wins, and an unwritten key reads through to the base store. -/
theorem lookup_foldWrites :
    ∀ (w : List (String × Entry)) (s : Store) (n : String),
      storeLookup (foldWrites w s) n =
        match lastWrite w n with
        | some e => some e
        | Option.none => storeLookup s n
  | [], _, _ => rfl
  | (k, e) :: rest, s, n => by
    show storeLookup (foldWrites rest (storeSet s k e)) n = _
    rw [lookup_foldWrites rest (storeSet s k e) n]
    simp only [lastWrite]
    cases lastWrite rest n with
    | some e2 => rfl
    | none =>
      rw [storeLookup_storeSet]
      by_cases hkn : k = n
      · rw [if_pos hkn, if_pos hkn]
      · rw [if_neg hkn, if_neg hkn]

/-- Replaying the same assignments a second time changes no lookup. -/
theorem foldWrites_idem (w : List (String × Entry)) (s : Store) (n : String) :
    storeLookup (foldWrites w (foldWrites w s)) n = storeLookup (foldWrites w s) n := by
  rw [lookup_foldWrites, lookup_foldWrites]
  cases lastWrite w n <;> rfl

/-- Membership is preserved by a sequence of assignments. -/
theorem storeMem_foldWrites (w : List (String × Entry)) (s : Store) (n : String)
    (h : storeMem s n = true) : storeMem (foldWrites w s) n = true :=
  storeMem_foldl_set w s n h

/-- `add_message_and_attrs_to_store` is exactly the item's write
sequence. -/
theorem addStore_eq_foldWrites (store : Store) (name : String) (item : Entry) :
    addMessageAndAttrsToStore store name item = foldWrites (itemWrites name item) store := by
  rw [addMessageAndAttrsToStore, itemWrites, foldWrites]
  simp only [List.foldl_cons, List.foldl_map]

/-- The node stored under an id after `add_message_and_attrs_to_store`
is the item just written (attribute keys never shadow the id). -/
theorem lookup_addStore (store : Store) (name : String) (item : Entry) :
    storeLookup (addMessageAndAttrsToStore store name item) name = some item := by
  rw [addStore_eq_foldWrites, itemWrites]
  show storeLookup (foldWrites _ (storeSet store name item)) name = some item
  rw [lookup_foldWrites]
  have hbase : storeLookup (storeSet store name item) name = some item := by
    rw [storeLookup_storeSet, if_pos rfl]
  cases hlw : lastWrite (item.attrsOf.map
      (fun a => (messageIdForAttr name a.id, .attribute a.value))) name with
  | none => exact hbase
  | some e2 =>
    exfalso
    revert hlw
    induction item.attrsOf with
    | nil => intro hlw; simp [lastWrite] at hlw
    | cons a rest ih =>
      intro hlw
      simp only [List.map_cons, lastWrite] at hlw
      cases hrec : lastWrite
          (rest.map fun a => (messageIdForAttr name a.id, Entry.attribute a.value)) name with
      | some e3 =>
        rw [hrec] at hlw
        exact ih (hrec.trans (by exact hlw))
      | none =>
        rw [hrec, if_neg (messageIdForAttr_ne name a.id)] at hlw
        exact Option.noConfusion hlw

/-- `_add_message` on an id already present: the node is written
anyway and one duplicate-id issue is appended. -/
theorem addMessage_present (store : Store) (issues : List (Option String × FluentError))
    (name : String) (item : Entry) (h : storeMem store name = true) :
    addMessage store issues name item =
      (addMessageAndAttrsToStore store name item, issues ++ [dupIssue name]) := by
  rw [addMessage]
  rw [if_pos h]
  rfl

/-- `_add_message` on a fresh id: the node is written, no issue. -/
theorem addMessage_absent (store : Store) (issues : List (Option String × FluentError))
    (name : String) (item : Entry) (h : storeMem store name = false) :
    addMessage store issues name item = (addMessageAndAttrsToStore store name item, issues) := by
  rw [addMessage]
  rw [if_neg (by simp [h])]

/-- The stores after `add_messages` are the write sequences of the body
applied to the incoming stores. -/
theorem addMessages_stores :
    ∀ (body : List ResourceItem) (ctx : MessageContextData),
      (addMessages ctx body).messages = foldWrites (msgWrites body) ctx.messages ∧
      (addMessages ctx body).terms = foldWrites (termWrites body) ctx.terms
  | [], _ => ⟨rfl, rfl⟩
  | .message id v attrs :: rest, ctx => by
    have h := addMessages_stores rest
      { ctx with
        messages := (addMessage ctx.messages ctx.parsingIssues id (.message v attrs)).1,
        parsingIssues := (addMessage ctx.messages ctx.parsingIssues id (.message v attrs)).2 }
    constructor
    · calc (addMessages ctx (.message id v attrs :: rest)).messages
          = foldWrites (msgWrites rest)
              (addMessageAndAttrsToStore ctx.messages id (.message v attrs)) := h.1
        _ = foldWrites (msgWrites rest)
              (foldWrites (itemWrites id (.message v attrs)) ctx.messages) := by
            rw [addStore_eq_foldWrites]
        _ = foldWrites (itemWrites id (.message v attrs) ++ msgWrites rest) ctx.messages := by
            simp [foldWrites, List.foldl_append]
    · exact h.2
  | .term id v attrs :: rest, ctx => by
    have h := addMessages_stores rest
      { ctx with
        terms := (addMessage ctx.terms ctx.parsingIssues id (.term v attrs)).1,
        parsingIssues := (addMessage ctx.terms ctx.parsingIssues id (.term v attrs)).2 }
    constructor
    · exact h.1
    · calc (addMessages ctx (.term id v attrs :: rest)).terms
          = foldWrites (termWrites rest)
              (addMessageAndAttrsToStore ctx.terms id (.term v attrs)) := h.2
        _ = foldWrites (termWrites rest)
              (foldWrites (itemWrites id (.term v attrs)) ctx.terms) := by
            rw [addStore_eq_foldWrites]
        _ = foldWrites (itemWrites id (.term v attrs) ++ termWrites rest) ctx.terms := by
            simp [foldWrites, List.foldl_append]
  | .junk annotations :: rest, ctx => by
    have h := addMessages_stores rest
      { ctx with parsingIssues := ctx.parsingIssues ++
          [(Option.none, .junkFound ("Junk found: " ++ String.intercalate "; " annotations))] }
    exact ⟨h.1, h.2⟩

/-- Every message id a body defines is present after the load. -/
theorem storeMem_addMessages_msg :
    ∀ (body : List ResourceItem) (ctx : MessageContextData) (id : String),
      id ∈ msgIds body → storeMem (addMessages ctx body).messages id = true
  | [], _, _, h => by simp [msgIds] at h
  | .message id2 v attrs :: rest, ctx, id, h => by
    have hstep := addMessages_stores rest
      { ctx with
        messages := (addMessage ctx.messages ctx.parsingIssues id2 (.message v attrs)).1,
        parsingIssues := (addMessage ctx.messages ctx.parsingIssues id2 (.message v attrs)).2 }
    rcases List.mem_cons.1 (by simpa [msgIds] using h) with heq | hmem
    · subst heq
      have hm1 : storeMem (addMessageAndAttrsToStore ctx.messages id (.message v attrs)) id
          = true := by
        rw [storeMem, lookup_addStore]; rfl
      rw [show (addMessages ctx (.message id v attrs :: rest)).messages
            = foldWrites (msgWrites rest)
                (addMessageAndAttrsToStore ctx.messages id (.message v attrs))
          from hstep.1]
      exact storeMem_foldWrites _ _ _ hm1
    · exact storeMem_addMessages_msg rest _ id hmem
  | .term id2 v attrs :: rest, ctx, id, h =>
    storeMem_addMessages_msg rest _ id (by simpa [msgIds] using h)
  | .junk annotations :: rest, ctx, id, h =>
    storeMem_addMessages_msg rest _ id (by simpa [msgIds] using h)

/-- Every term id a body defines is present after the load. -/
theorem storeMem_addMessages_term :
    ∀ (body : List ResourceItem) (ctx : MessageContextData) (id : String),
      id ∈ termIds body → storeMem (addMessages ctx body).terms id = true
  | [], _, _, h => by simp [termIds] at h
  | .term id2 v attrs :: rest, ctx, id, h => by
    have hstep := addMessages_stores rest
      { ctx with
        terms := (addMessage ctx.terms ctx.parsingIssues id2 (.term v attrs)).1,
        parsingIssues := (addMessage ctx.terms ctx.parsingIssues id2 (.term v attrs)).2 }
    rcases List.mem_cons.1 (by simpa [termIds] using h) with heq | hmem
    · subst heq
      have hm1 : storeMem (addMessageAndAttrsToStore ctx.terms id (.term v attrs)) id
          = true := by
        rw [storeMem, lookup_addStore]; rfl
      rw [show (addMessages ctx (.term id v attrs :: rest)).terms
            = foldWrites (termWrites rest)
                (addMessageAndAttrsToStore ctx.terms id (.term v attrs))
          from hstep.2]
      exact storeMem_foldWrites _ _ _ hm1
    · exact storeMem_addMessages_term rest _ id hmem
  | .message id2 v attrs :: rest, ctx, id, h =>
    storeMem_addMessages_term rest _ id (by simpa [termIds] using h)
  | .junk annotations :: rest, ctx, id, h =>
    storeMem_addMessages_term rest _ id (by simpa [termIds] using h)

/-- Loading a junk-free body whose every id is already present appends
exactly one duplicate-id issue per item, in body order. -/
theorem addMessages_issues_present :
    ∀ (body : List ResourceItem) (ctx : MessageContextData),
      noJunk body = true →
      (∀ i ∈ msgIds body, storeMem ctx.messages i = true) →
      (∀ i ∈ termIds body, storeMem ctx.terms i = true) →
      (addMessages ctx body).parsingIssues = ctx.parsingIssues ++ dupIssues body
  | [], ctx, _, _, _ => by simp [addMessages, dupIssues]
  | .message id v attrs :: rest, ctx, hj, hm, ht => by
    have hmem : storeMem ctx.messages id = true := hm id (by simp [msgIds])
    have e1 : addMessage ctx.messages ctx.parsingIssues id (.message v attrs) =
        (addMessageAndAttrsToStore ctx.messages id (.message v attrs),
         ctx.parsingIssues ++ [dupIssue id]) :=
      addMessage_present _ _ _ _ hmem
    have step : addMessages ctx (.message id v attrs :: rest) =
        addMessages { ctx with
          messages := addMessageAndAttrsToStore ctx.messages id (.message v attrs),
          parsingIssues := ctx.parsingIssues ++ [dupIssue id] } rest := by
      show addMessages { ctx with
          messages := (addMessage ctx.messages ctx.parsingIssues id (.message v attrs)).1,
          parsingIssues :=
            (addMessage ctx.messages ctx.parsingIssues id (.message v attrs)).2 } rest = _
      rw [e1]
    rw [step]
    rw [addMessages_issues_present rest
      { ctx with
        messages := addMessageAndAttrsToStore ctx.messages id (.message v attrs),
        parsingIssues := ctx.parsingIssues ++ [dupIssue id] }
      hj
      (fun i hi => by
        show storeMem (addMessageAndAttrsToStore ctx.messages id (.message v attrs)) i = true
        rw [addStore_eq_foldWrites]
        exact storeMem_foldWrites _ _ _ (hm i (by simp [msgIds, hi])))
      (fun i hi => ht i (by simpa [termIds] using hi))]
    simp [dupIssues]
  | .term id v attrs :: rest, ctx, hj, hm, ht => by
    have hmem : storeMem ctx.terms id = true := ht id (by simp [termIds])
    have e1 : addMessage ctx.terms ctx.parsingIssues id (.term v attrs) =
        (addMessageAndAttrsToStore ctx.terms id (.term v attrs),
         ctx.parsingIssues ++ [dupIssue id]) :=
      addMessage_present _ _ _ _ hmem
    have step : addMessages ctx (.term id v attrs :: rest) =
        addMessages { ctx with
          terms := addMessageAndAttrsToStore ctx.terms id (.term v attrs),
          parsingIssues := ctx.parsingIssues ++ [dupIssue id] } rest := by
      show addMessages { ctx with
          terms := (addMessage ctx.terms ctx.parsingIssues id (.term v attrs)).1,
          parsingIssues :=
            (addMessage ctx.terms ctx.parsingIssues id (.term v attrs)).2 } rest = _
      rw [e1]
    rw [step]
    rw [addMessages_issues_present rest
      { ctx with
        terms := addMessageAndAttrsToStore ctx.terms id (.term v attrs),
        parsingIssues := ctx.parsingIssues ++ [dupIssue id] }
      hj
      (fun i hi => hm i (by simpa [msgIds] using hi))
      (fun i hi => by
        show storeMem (addMessageAndAttrsToStore ctx.terms id (.term v attrs)) i = true
        rw [addStore_eq_foldWrites]
        exact storeMem_foldWrites _ _ _ (ht i (by simp [termIds, hi])))]
    simp [dupIssues]
  | .junk annotations :: rest, ctx, hj, _, _ => by simp [noJunk] at hj

/-- `foo = A` as a resource item. -/
def fooA : ResourceItem :=
  .message "foo" (some (.pattern (.mk 1 (.cons (.textElement "A") .nil)))) []

/-- A second `foo = B` resource item. -/
def fooB : ResourceItem :=
  .message "foo" (some (.pattern (.mk 2 (.cons (.textElement "B") .nil)))) []

/-- A body defining `foo` twice. -/
def fooBody : List ResourceItem := [fooA, fooB]

/-- C3 counterexample: loading `foo = A` then `foo = B` records the
duplicate-id issue, but the lookup returns the node loaded LAST
(`foo = B`) — `_add_message` assigns unconditionally, so the claimed
"the first definition wins" is refuted. -/
theorem c3_counterexample :
    storeLookup (addMessages emptyContext fooBody).messages "foo" =
      some (.message (some (.pattern (.mk 2 (.cons (.textElement "B") .nil)))) []) ∧
    (addMessages emptyContext fooBody).parsingIssues = [dupIssue "foo"] ∧
    interpretingFormat (addMessages emptyContext fooBody) "foo" [] = .ok (.str "B", []) :=
  ⟨by rfl, by rfl, by rfl⟩

/-- C3 (duplicate-id load, amended to last-wins): (1) `_add_message` on
an id already present appends exactly one `FluentDuplicateMessageId`
issue and still writes the node; (2) on a fresh id it writes with no
issue; (3) the node found under an id after a write is the item just
written — the LAST definition wins; (4) re-loading the same body
changes no message or term lookup; (5) re-loading a junk-free body
appends exactly one duplicate-id issue per message or term item, in
body order. -/
theorem c3_duplicate_load :
    (∀ (store : Store) (issues : List (Option String × FluentError))
       (name : String) (item : Entry),
       storeMem store name = true →
       addMessage store issues name item =
         (addMessageAndAttrsToStore store name item, issues ++ [dupIssue name])) ∧
    (∀ (store : Store) (issues : List (Option String × FluentError))
       (name : String) (item : Entry),
       storeMem store name = false →
       addMessage store issues name item =
         (addMessageAndAttrsToStore store name item, issues)) ∧
    (∀ (store : Store) (name : String) (item : Entry),
       storeLookup (addMessageAndAttrsToStore store name item) name = some item) ∧
    (∀ (ctx : MessageContextData) (body : List ResourceItem) (n : String),
       storeLookup (addMessages (addMessages ctx body) body).messages n =
         storeLookup (addMessages ctx body).messages n ∧
       storeLookup (addMessages (addMessages ctx body) body).terms n =
         storeLookup (addMessages ctx body).terms n) ∧
    (∀ (ctx : MessageContextData) (body : List ResourceItem),
       noJunk body = true →
       (addMessages (addMessages ctx body) body).parsingIssues =
         (addMessages ctx body).parsingIssues ++ dupIssues body) := by
  refine ⟨addMessage_present, addMessage_absent, lookup_addStore, ?_, ?_⟩
  · intro ctx body n
    have h1 := addMessages_stores body ctx
    have h2 := addMessages_stores body (addMessages ctx body)
    constructor
    · rw [h2.1, h1.1]
      exact foldWrites_idem _ _ _
    · rw [h2.2, h1.2]
      exact foldWrites_idem _ _ _
  · intro ctx body hj
    exact addMessages_issues_present body (addMessages ctx body) hj
      (fun i hi => storeMem_addMessages_msg body ctx i hi)
      (fun i hi => storeMem_addMessages_term body ctx i hi)

/-- Witness for C3: the clauses at `foo = A` / `foo = B` — the
duplicate write records one issue and stores the second node, the
fresh write stores silently, the last write wins the lookup, and
re-loading the two-item body leaves the lookup unchanged and appends
one duplicate issue per item. -/
theorem c3_duplicate_load_witness :
    addMessage [("foo", .message (some (.pattern (.mk 1 (.cons (.textElement "A") .nil)))) [])]
        [] "foo" (.message (some (.pattern (.mk 2 (.cons (.textElement "B") .nil)))) []) =
      (addMessageAndAttrsToStore
        [("foo", .message (some (.pattern (.mk 1 (.cons (.textElement "A") .nil)))) [])]
        "foo" (.message (some (.pattern (.mk 2 (.cons (.textElement "B") .nil)))) []),
       [] ++ [dupIssue "foo"]) ∧
    addMessage [] [] "foo"
        (.message (some (.pattern (.mk 1 (.cons (.textElement "A") .nil)))) []) =
      (addMessageAndAttrsToStore [] "foo"
        (.message (some (.pattern (.mk 1 (.cons (.textElement "A") .nil)))) []), []) ∧
    storeLookup
        (addMessageAndAttrsToStore
          [("foo", .message (some (.pattern (.mk 1 (.cons (.textElement "A") .nil)))) [])]
          "foo" (.message (some (.pattern (.mk 2 (.cons (.textElement "B") .nil)))) []))
        "foo" =
      some (.message (some (.pattern (.mk 2 (.cons (.textElement "B") .nil)))) []) ∧
    storeLookup (addMessages (addMessages emptyContext fooBody) fooBody).messages "foo" =
      storeLookup (addMessages emptyContext fooBody).messages "foo" ∧
    (addMessages (addMessages emptyContext fooBody) fooBody).parsingIssues =
      (addMessages emptyContext fooBody).parsingIssues ++ dupIssues fooBody :=
  ⟨c3_duplicate_load.1
     [("foo", .message (some (.pattern (.mk 1 (.cons (.textElement "A") .nil)))) [])]
     [] "foo" (.message (some (.pattern (.mk 2 (.cons (.textElement "B") .nil)))) [])
     (by rfl),
   c3_duplicate_load.2.1 [] [] "foo"
     (.message (some (.pattern (.mk 1 (.cons (.textElement "A") .nil)))) []) (by rfl),
   c3_duplicate_load.2.2.1
     [("foo", .message (some (.pattern (.mk 1 (.cons (.textElement "A") .nil)))) [])]
     "foo" (.message (some (.pattern (.mk 2 (.cons (.textElement "B") .nil)))) []),
   (c3_duplicate_load.2.2.2.1 emptyContext fooBody "foo").1,
   c3_duplicate_load.2.2.2.2 emptyContext fooBody (by rfl)⟩

end PyFluent
